import Mathlib

/-!
# AtomBusMon firmware: breakpoint store, protocol serializer, hardware bus, run and step control

A shallow embedding of `src/firmware/AtomBusMon.c`.

Target conventions (the firmware is built with avr-gcc): `int` and
`unsigned int` are 16 bits wide, `long` is 32 bits wide.  Values of
`unsigned int` variables are natural numbers below 65536; the `int`
variables `numbkpts`, `n` and `trigger` (in `doCmdTrigger`) are integers.

The parameter string of a command is represented by the values `sscanf`
delivers from it: a hexadecimal field is a `Nat` (its 16-bit pattern), and a
field that may be missing is an `Option Nat` (`none`: the conversion did not
take place and the variable keeps its initial value).

The three parallel arrays `breakpoints`, `modes`, `triggers` are functions
from the cell index; cells 0..7 are the allocated slots, a cell with a larger
index stands for whatever memory follows the array, about which nothing is
assumed.
-/

namespace AtomBusMon

/-! ## Constants -/

def CMD_SINGLE_ENABLE : Nat := 0x00
def CMD_BRKPT_ENABLE : Nat := 0x02
def CMD_LOAD_BRKPT : Nat := 0x04
def CMD_RESET : Nat := 0x06
def CMD_STEP : Nat := 0x08
def CMD_WATCH_READ : Nat := 0x09
def CMD_FIFO_RST : Nat := 0x0A

def CMD_MASK : Nat := 0x1F
def CMD_EDGE : Nat := 0x10
def MUXSEL_MASK : Nat := 0x0F
def MUXSEL_BIT : Nat := 0

def OFFSET_IAL : Nat := 0
def OFFSET_BW_IAL : Nat := 2
def OFFSET_BW_BAL : Nat := 4
def OFFSET_BW_M : Nat := 6

def INTERRUPTED_MASK : Nat := 0x40
def BW_ACTIVE_MASK : Nat := 0x80

def BRKPT_INSTR : Nat := 0
def BRKPT_READ : Nat := 1
def BRKPT_WRITE : Nat := 2
def WATCH_INSTR : Nat := 3
def WATCH_READ : Nat := 4
def WATCH_WRITE : Nat := 5
def UNDEFINED : Nat := 6

def NUM_TRIGGERS : Nat := 16
def TRIGGER_ALWAYS : Nat := 15
def MAXBKPTS : Nat := 8

/-- The value of `(unsigned int) -1`, i.e. what `unsigned int trigger = -1`
holds and what `trigger == -1` compares against (16-bit `unsigned int`). -/
def UINT_MAX : Nat := 65535

/-- Reinterpretation of a 16-bit pattern as a (two's complement) `int`. -/
def toInt16 (v : Nat) : Int := if v < 32768 then (v : Int) else (v : Int) - 65536

/-! ## Data model -/

/-- The globals `numbkpts`, `breakpoints[]`, `modes[]`, `triggers[]`. -/
@[ext]
structure Store where
  numbkpts : Int
  breakpoints : Nat → Nat
  modes : Nat → Nat
  triggers : Nat → Nat

/-- The array assignment `a[i] = v`. -/
def arrSet (a : Nat → Nat) (i v : Nat) : Nat → Nat :=
  fun j => if j = i then v else a j

/-- One logical breakpoint: the three array cells with the same index. -/
structure Entry where
  address : Nat
  mode : Nat
  trigger : Nat
deriving DecidableEq, Repr

/-- The entry held in slot `i`. -/
def Store.entry (s : Store) (i : Nat) : Entry :=
  ⟨s.breakpoints i, s.modes i, s.triggers i⟩

/-- The stored entries: slots `0 .. numbkpts-1`, in index order. -/
def Store.entries (s : Store) : List Entry :=
  (List.range s.numbkpts.toNat).map s.entry

/-- The start-up contents of the globals: `numbkpts = 0`, all cells zero. -/
def emptyStore : Store := ⟨0, fun _ => 0, fun _ => 0, fun _ => 0⟩

/-- The text lines the store commands send to `log0`, by kind. -/
inductive Msg where
  /-- Output of setBreakpoint: logMode(mode), then " set at %04X". -/
  | setAt (mode addr : Nat)
  /-- Output of doCmdBreak: logMode(mode), then " already set at %04X". -/
  | alreadySetAt (mode addr : Nat)
  /-- Output of doCmdBreak: "All %d breakpoints are already set". -/
  | allSet (n : Int)
  /-- Output of lookupBreakpoint: "Breakpoint/watch not set at %04X". -/
  | notSetAt (n : Int)
  /-- Output of doCmdBClear: "Removing ", logMode(mode), " at %04X". -/
  | removing (mode addr : Nat)
  /-- Output of doCmdBClear: logMode(mode), then " not set at %04X". -/
  | modeNotSetAt (mode addr : Nat)
  /-- Output of doCmdTrigger: "Trigger Codes:" and the table of 16 codes. -/
  | triggerCodes
  /-- Output of doCmdTrigger: "Illegal trigger code (see help for trigger codes)". -/
  | illegalTrigger
deriving DecidableEq, Repr

/-! ## Breakpoint store operations -/

/-- The scan `for (i = 0; i < numbkpts; i++) if (breakpoints[i] == addr)`
shared by `doCmdBreak` and `lookupBreakpoint`: the first index among
`i, i+1, .., i+cnt-1` whose cell equals `addr`. -/
def findAddr (bp : Nat → Nat) (addr : Nat) : Nat → Nat → Option Nat
  | _, 0 => none
  | i, cnt + 1 => if bp i = addr then some i else findAddr bp addr (i + 1) cnt

/-- The function `setBreakpoint(i, addr, mode, trigger)`. -/
def setBreakpoint (s : Store) (i addr mode trigger : Nat) : Store × List Msg :=
  ({ s with
      breakpoints := arrSet s.breakpoints i addr
      modes := arrSet s.modes i mode
      triggers := arrSet s.triggers i trigger },
   [Msg.setAt mode addr])

/-- The insertion loop of `doCmdBreak`,
`for (i = numbkpts - 2; i >= -1; i--)`, with the loop variable shifted by
one: the argument is `i + 1`, so `0` is the case `i == -1`. -/
def insertLoop (s : Store) (addr mode trigger : Nat) : Nat → Store × List Msg
  | 0 => setBreakpoint s 0 addr mode trigger
  | k + 1 =>
    if s.breakpoints k < addr then
      setBreakpoint s (k + 1) addr mode trigger
    else
      insertLoop
        { s with
            breakpoints := arrSet s.breakpoints (k + 1) (s.breakpoints k)
            modes := arrSet s.modes (k + 1) (s.modes k)
            triggers := arrSet s.triggers (k + 1) (s.triggers k) }
        addr mode trigger k

/-- The function `doCmdBreak(params, mode)`; `addr` and `explicitTrigger` are
what `sscanf(params, "%x %x", &addr, &trigger)` delivers. -/
def doCmdBreak (s : Store) (addr : Nat) (explicitTrigger : Option Nat) (mode : Nat) :
    Store × List Msg :=
  let trigger := explicitTrigger.getD UINT_MAX
  match findAddr s.breakpoints addr 0 s.numbkpts.toNat with
  | some i =>
    if s.modes i &&& mode ≠ 0 then
      (s, [Msg.alreadySetAt mode addr])
    else
      let trigger := if trigger = UINT_MAX then s.triggers i else trigger
      setBreakpoint s i addr (s.modes i ||| mode) trigger
  | none =>
    if s.numbkpts = MAXBKPTS then
      (s, [Msg.allSet s.numbkpts])
    else
      let s1 := { s with numbkpts := s.numbkpts + 1 }
      let trigger := if trigger = UINT_MAX then TRIGGER_ALWAYS else trigger
      if -1 ≤ s1.numbkpts - 2 then
        insertLoop s1 addr mode trigger (s1.numbkpts - 1).toNat
      else
        (s1, [])

def doCmdBreakI (s : Store) (addr : Nat) (t : Option Nat) : Store × List Msg :=
  doCmdBreak s addr t (1 <<< BRKPT_INSTR)

def doCmdBreakR (s : Store) (addr : Nat) (t : Option Nat) : Store × List Msg :=
  doCmdBreak s addr t (1 <<< BRKPT_READ)

def doCmdBreakW (s : Store) (addr : Nat) (t : Option Nat) : Store × List Msg :=
  doCmdBreak s addr t (1 <<< BRKPT_WRITE)

def doCmdWatchI (s : Store) (addr : Nat) (t : Option Nat) : Store × List Msg :=
  doCmdBreak s addr t (1 <<< WATCH_INSTR)

def doCmdWatchR (s : Store) (addr : Nat) (t : Option Nat) : Store × List Msg :=
  doCmdBreak s addr t (1 <<< WATCH_READ)

def doCmdWatchW (s : Store) (addr : Nat) (t : Option Nat) : Store × List Msg :=
  doCmdBreak s addr t (1 <<< WATCH_WRITE)

/-- The function `lookupBreakpoint(params)`: `param` is what
`sscanf(params, "%x", &n)` delivers (`none`: `n` keeps its initial `-1`).
The comparison `breakpoints[i] == n` is made in `unsigned int`, the
comparison `n < numbkpts` in `int`. -/
def lookupBreakpoint (s : Store) (param : Option Nat) : Int × List Msg :=
  let raw := param.getD UINT_MAX
  let n : Int :=
    match findAddr s.breakpoints raw 0 s.numbkpts.toNat with
    | some i => (i : Int)
    | none => toInt16 raw
  if n < s.numbkpts then (n, []) else (-1, [Msg.notSetAt n])

/-- The compaction loop of `doCmdBClear`,
`for (i = n; i < numbkpts; i++)`: the second argument counts the iterations
left (`numbkpts - i`). -/
def compactLoop (s : Store) : Nat → Nat → Store
  | _, 0 => s
  | i, cnt + 1 =>
    compactLoop
      { s with
          breakpoints := arrSet s.breakpoints i (s.breakpoints (i + 1))
          modes := arrSet s.modes i (s.modes (i + 1))
          triggers := arrSet s.triggers i (s.triggers (i + 1)) }
      (i + 1) cnt

/-- The function `doCmdBClear(params, mode)`; `~mode` is the 16-bit
complement. -/
def doCmdBClear (s : Store) (param : Option Nat) (mode : Nat) : Store × List Msg :=
  let r := lookupBreakpoint s param
  let n := r.1
  if n < 0 then
    (s, r.2)
  else
    let k := n.toNat
    if s.modes k &&& mode ≠ 0 then
      let m := s.modes k &&& (UINT_MAX ^^^ mode)
      let s1 := { s with modes := arrSet s.modes k m }
      let out := r.2 ++ [Msg.removing mode (s.breakpoints k)]
      if m = 0 then
        let s2 := compactLoop s1 k (s1.numbkpts - n).toNat
        ({ s2 with numbkpts := s2.numbkpts - 1 }, out)
      else
        (s1, out)
    else
      (s, r.2 ++ [Msg.modeNotSetAt mode (s.breakpoints k)])

def doCmdBClearI (s : Store) (param : Option Nat) : Store × List Msg :=
  doCmdBClear s param (1 <<< BRKPT_INSTR)

def doCmdBClearR (s : Store) (param : Option Nat) : Store × List Msg :=
  doCmdBClear s param (1 <<< BRKPT_READ)

def doCmdBClearW (s : Store) (param : Option Nat) : Store × List Msg :=
  doCmdBClear s param (1 <<< BRKPT_WRITE)

def doCmdWClearI (s : Store) (param : Option Nat) : Store × List Msg :=
  doCmdBClear s param (1 <<< WATCH_INSTR)

def doCmdWClearR (s : Store) (param : Option Nat) : Store × List Msg :=
  doCmdBClear s param (1 <<< WATCH_READ)

def doCmdWClearW (s : Store) (param : Option Nat) : Store × List Msg :=
  doCmdBClear s param (1 <<< WATCH_WRITE)

/-- The function `doCmdTrigger(params)`: `param` is the first field (read by
`lookupBreakpoint`), `code` what `sscanf(params, "%*x %x", &trigger)`
delivers into the `int trigger` (`none`: it keeps its initial `-1`). -/
def doCmdTrigger (s : Store) (param : Option Nat) (code : Option Nat) : Store × List Msg :=
  let r := lookupBreakpoint s param
  let n := r.1
  if n < 0 then
    (s, r.2 ++ [Msg.triggerCodes])
  else
    let trigger : Int := toInt16 (code.getD UINT_MAX)
    if 0 ≤ trigger ∧ trigger < NUM_TRIGGERS then
      ({ s with triggers := arrSet s.triggers n.toNat trigger.toNat }, r.2)
    else
      (s, r.2 ++ [Msg.illegalTrigger])

/-- The thirteen store commands of the dispatch table `cmdFuncs`, each with
the values parsed from its parameter string. -/
inductive Cmd where
  | breaki (addr : Nat) (trigger : Option Nat)
  | breakr (addr : Nat) (trigger : Option Nat)
  | breakw (addr : Nat) (trigger : Option Nat)
  | watchi (addr : Nat) (trigger : Option Nat)
  | watchr (addr : Nat) (trigger : Option Nat)
  | watchw (addr : Nat) (trigger : Option Nat)
  | bcleari (param : Option Nat)
  | bclearr (param : Option Nat)
  | bclearw (param : Option Nat)
  | wcleari (param : Option Nat)
  | wclearr (param : Option Nat)
  | wclearw (param : Option Nat)
  | trigger (param : Option Nat) (code : Option Nat)
deriving DecidableEq, Repr

/-- What `dispatchCmd` runs for one store command. -/
def Cmd.exec (s : Store) : Cmd → Store × List Msg
  | .breaki a t => doCmdBreakI s a t
  | .breakr a t => doCmdBreakR s a t
  | .breakw a t => doCmdBreakW s a t
  | .watchi a t => doCmdWatchI s a t
  | .watchr a t => doCmdWatchR s a t
  | .watchw a t => doCmdWatchW s a t
  | .bcleari p => doCmdBClearI s p
  | .bclearr p => doCmdBClearR s p
  | .bclearw p => doCmdBClearW s p
  | .wcleari p => doCmdWClearI s p
  | .wclearr p => doCmdWClearR s p
  | .wclearw p => doCmdWClearW s p
  | .trigger p c => doCmdTrigger s p c

/-- The store after a sequence of commands, executed first to last. -/
def run (s : Store) : List Cmd → Store
  | [] => s
  | c :: cs => run (c.exec s).1 cs

/-! ## Hardware bus

The build modelled is the plain one: neither `LCD` nor `EMBEDDED_6502` is
defined. -/

/-- The hardware-facing state: the two output ports the firmware drives, and
two records kept for stating properties (they do not influence the code):
every value assigned to `CTRL_PORT`, and the arguments of every `hwCmd` call,
both oldest first. -/
structure Hw where
  ctrlPort : Nat
  muxselPort : Nat
  ctrlWrites : List Nat
  cmds : List (Nat × Nat)
deriving DecidableEq, Repr

/-- The function `hwCmd(cmd, param)`; `CTRL_PORT` is an 8-bit register. -/
def hwCmd (cmd param : Nat) (h : Hw) : Hw :=
  let c := cmd ||| param
  let p1 := h.ctrlPort &&& (0xFF ^^^ CMD_MASK)
  let p2 := (p1 ||| c) % 256
  let p3 := p2 ||| CMD_EDGE
  { h with
      ctrlPort := p3
      ctrlWrites := h.ctrlWrites ++ [p1, p2, p3]
      cmds := h.cmds ++ [(cmd, param)] }

/-- The function `hwRead8(offset)`; `mux` gives the byte the hardware
presents on `MUX_DIN` for each value of the four mux-select lines. -/
def hwRead8 (offset : Nat) (mux : Nat → Nat) (h : Hw) : Nat × Hw :=
  let m1 := h.muxselPort &&& (0xFF ^^^ MUXSEL_MASK)
  let m2 := (m1 ||| (offset <<< MUXSEL_BIT)) % 256
  (mux (m2 &&& MUXSEL_MASK), { h with muxselPort := m2 })

/-- The function `hwRead16(offset)`. -/
def hwRead16 (offset : Nat) (mux : Nat → Nat) (h : Hw) : Nat × Hw :=
  let m1 := h.muxselPort &&& (0xFF ^^^ MUXSEL_MASK)
  let m2 := (m1 ||| (offset <<< MUXSEL_BIT)) % 256
  let lsb := mux (m2 &&& MUXSEL_MASK)
  let m3 := m2 ||| (1 <<< MUXSEL_BIT)
  (((mux (m3 &&& MUXSEL_MASK) <<< 8) ||| lsb) % 65536, { h with muxselPort := m3 })

/-! ## Protocol serializer -/

/-- The value of the local `long reg` of `shiftBreakpointRegister` when its
loop starts (`reg = trigger; reg <<= 6; reg |= mode; reg <<= 16; reg |= addr`),
as a 32-bit pattern. -/
def shiftBreakpointRegister_reg (addr mode trigger : Nat) : Nat :=
  ((((trigger <<< 6) % 2 ^ 32) ||| mode) <<< 16) % 2 ^ 32 ||| addr

/-- The loop `for (i = 0; i <= 25; i++)` of `shiftBreakpointRegister`; the
second argument counts the iterations left.  Only bit 0 of `reg` is observed,
and at most 26 times, so the fill bit of `>>=` on a `long` plays no role. -/
def shiftLoop (reg : Nat) : Nat → Hw → Hw
  | 0, h => h
  | cnt + 1, h => shiftLoop (reg >>> 1) cnt (hwCmd CMD_LOAD_BRKPT (reg &&& 1) h)

/-- The function `shiftBreakpointRegister(addr, mode, trigger)`. -/
def shiftBreakpointRegister (addr mode trigger : Nat) (h : Hw) : Hw :=
  shiftLoop (shiftBreakpointRegister_reg addr mode trigger) 26 h

/-! ## Execution controller -/

/-- What the hardware and the serial line present during one pass of the poll
loop of `doCmdContinue` (or after it): the byte read from `STATUS_DIN`, the
bytes behind the mux, and the answer of `Serial_ByteRecieved0()`. -/
structure Poll where
  status : Nat
  mux : Nat → Nat
  serial : Bool

/-- The text lines of the execution controller, by kind. -/
inductive Out where
  /-- Output of doCmdContinue: "6502 free running...". -/
  | freeRunning
  /-- Output of logDetails: logMode(mode), " hit at %04X", and
  " accessing %04X" when the mode is a memory access. -/
  | hit (mode iAddr : Nat) (bAddr : Option Nat)
  /-- Output of doCmdContinue: "Interrupted". -/
  | interrupted
  /-- Output of doCmdAddr: "%04X", the current instruction address. -/
  | addr (a : Nat)
  /-- Output of doCmdStep: "Use the break command to stop the 6502". -/
  | useBreak
  /-- Output of doCmdStep: "Number of instuctions must be positive". -/
  | notPositive
  /-- Output of doCmdStep: "Stepping %ld instructions". -/
  | stepping (n : Int)
deriving DecidableEq, Repr

/-- The globals the execution controller works on. -/
structure Mon where
  store : Store
  hw : Hw
  single : Int
  memAddr : Nat
  out : List Out

def BW_MEM_MASK : Nat :=
  (1 <<< BRKPT_READ) ||| (1 <<< BRKPT_WRITE) ||| (1 <<< WATCH_READ) ||| (1 <<< WATCH_WRITE)

/-- The function `setSingle(i)`. -/
def setSingle (i : Int) (m : Mon) : Mon :=
  { m with single := i, hw := hwCmd CMD_SINGLE_ENABLE (if i ≠ 0 then 1 else 0) m.hw }

/-- The function `logDetails()`: returns `watch` and the new state. -/
def logDetails (mux : Nat → Nat) (m : Mon) : Nat × Mon :=
  let r1 := hwRead16 OFFSET_BW_IAL mux m.hw
  let r2 := hwRead16 OFFSET_BW_BAL mux r1.2
  let r3 := hwRead8 OFFSET_BW_M mux r2.2
  let watch := r3.1 &&& 8
  let mode := if watch ≠ 0 then (r3.1 &&& 7) <<< 3 else r3.1
  let line := Out.hit mode r1.1 (if mode &&& BW_MEM_MASK ≠ 0 then some r2.1 else none)
  (watch, { m with hw := r3.2, out := m.out ++ [line] })

/-- The function `doCmdAddr()`. -/
def doCmdAddr (mux : Nat → Nat) (m : Mon) : Mon :=
  let r := hwRead16 OFFSET_IAL mux m.hw
  { m with hw := r.2, memAddr := r.1, out := m.out ++ [Out.addr r.1] }

/-- The first loading loop of `doCmdContinue`,
`for (i = 0; i < numbkpts; i++)`: the second argument counts the iterations
left. -/
def loadLoop (s : Store) : Nat → Nat → Hw → Hw
  | _, 0, h => h
  | i, cnt + 1, h =>
    loadLoop s (i + 1) cnt
      (shiftBreakpointRegister (s.breakpoints i) (s.modes i) (s.triggers i) h)

/-- The second loading loop of `doCmdContinue`,
`for (i = numbkpts; i < MAXBKPTS; i++)`: the argument counts the iterations
left. -/
def zeroLoop : Nat → Hw → Hw
  | 0, h => h
  | cnt + 1, h => zeroLoop cnt (shiftBreakpointRegister 0 0 0 h)

/-- One pass of the body of the `do .. while (cont)` loop of `doCmdContinue`:
from the value of `cont` and the state before the pass to the value of `cont`
and the state after it. -/
def pollBody (p : Poll) (cont : Nat) (m : Mon) : Nat × Mon :=
  let status := p.status
  let r :=
    if status &&& BW_ACTIVE_MASK ≠ 0 then
      let d := logDetails p.mux m
      (d.1, { d.2 with hw := hwCmd CMD_WATCH_READ 0 d.2.hw })
    else
      (cont, m)
  if status &&& INTERRUPTED_MASK ≠ 0 ∨ p.serial = true then
    (0, { r.2 with out := r.2.out ++ [Out.interrupted] })
  else
    r

/-- The `do .. while (cont)` loop of `doCmdContinue` run against the passes
the environment offers: `some` with the unused passes when the loop has
ended, `none` when it is still polling after the last pass offered. -/
def pollLoop : List Poll → Nat → Mon → Mon × Option (List Poll)
  | [], _, m => (m, none)
  | p :: ps, cont, m =>
    let r := pollBody p cont m
    if r.1 ≠ 0 then pollLoop ps r.1 r.2 else (r.2, some ps)

/-- The part of `doCmdContinue` up to and including the message
"6502 free running...". -/
def doCmdContinue_arm (m : Mon) : Mon :=
  let h1 := hwCmd CMD_STEP 0 m.hw
  let h2 := hwCmd CMD_BRKPT_ENABLE 0 h1
  let h3 := loadLoop m.store 0 m.store.numbkpts.toNat h2
  let h4 := zeroLoop ((MAXBKPTS : Int) - m.store.numbkpts).toNat h3
  let h5 := hwCmd CMD_BRKPT_ENABLE 1 h4
  let m6 := setSingle 0 { m with hw := h5 }
  { m6 with out := m6.out ++ [Out.freeRunning] }

/-- The part of `doCmdContinue` after the poll loop; `after` is what the
environment presents then.  A pending serial byte is read and dropped there;
the model keeps no serial buffer, so that step has no effect on the state. -/
def doCmdContinue_stop (after : Poll) (m : Mon) : Mon :=
  let m1 := setSingle 1 m
  let m2 := { m1 with hw := hwCmd CMD_BRKPT_ENABLE 0 m1.hw }
  doCmdAddr after.mux m2

/-- The function `doCmdContinue(params)` run against an environment: `polls`
is what the poll loop sees pass by pass, `after` what is seen once the loop
has ended.  The second component tells whether the function has returned;
when it is `false` the state is the one reached after the last pass
offered, with the loop still polling. -/
def doCmdContinue (m : Mon) (polls : List Poll) (after : Poll) : Mon × Bool :=
  let r := pollLoop polls 1 (doCmdContinue_arm m)
  match r.2 with
  | none => (r.1, false)
  | some _ => (doCmdContinue_stop after r.1, true)

/-- The loop of `logMode(mode)`, `for (i = 0; i < UNDEFINED; i++)`: the
indices of the entries of `modeStrings` it prints, in order; the first
argument counts the iterations left. -/
def logModeLoop : Nat → Nat → Nat → List Nat
  | 0, _, _ => []
  | cnt + 1, i, mode =>
    (if mode &&& 1 ≠ 0 then [i] else []) ++ logModeLoop cnt (i + 1) (mode >>> 1)

/-- The function `logMode(mode)`: which mode names it prints. -/
def logMode (mode : Nat) : List Nat :=
  logModeLoop UNDEFINED 0 mode

/-- The array cells the compaction loop of `doCmdBClear` touches, in order:
each pass of `breakpoints[i] = breakpoints[i + 1]` (and likewise for `modes`
and `triggers`) reads cell `i + 1` and writes cell `i`.  Same recursion as
`compactLoop`. -/
def compactLoopCells : Nat → Nat → List Nat
  | _, 0 => []
  | i, cnt + 1 => (i + 1) :: i :: compactLoopCells (i + 1) cnt

/-! ## Vocabulary of the specifications -/

/-- The slot at which `insertLoop`, started at `k`, stores the new entry. -/
def insPos (bp : Nat → Nat) (a : Nat) : Nat → Nat
  | 0 => 0
  | k + 1 => if bp k < a then k + 1 else insPos bp a k

/-- An array after `insertLoop`: cells below `p` kept, `v` in cell `p`, cells
`p+1 .. k` holding the former cells `p .. k-1`, cells above `k` kept. -/
def insArr (old : Nat → Nat) (p k v : Nat) : Nat → Nat :=
  fun j => if j < p then old j else if j = p then v else if j ≤ k then old (j - 1) else old j

/-- An array after `compactLoop`: cells `i .. i+cnt-1` hold the former cells
`i+1 .. i+cnt`, all other cells are kept. -/
def compArr (old : Nat → Nat) (i cnt : Nat) : Nat → Nat :=
  fun j => if i ≤ j ∧ j < i + cnt then old (j + 1) else old j

/-- Cells `0 .. n-1` of an array are strictly ascending. -/
def Asc (bp : Nat → Nat) (n : Nat) : Prop := ∀ i j, i < j → j < n → bp i < bp j

/-- The store ordering invariant: the count is within the capacity and the
addresses of the stored entries are strictly ascending. -/
def Store.Ordered (s : Store) : Prop :=
  0 ≤ s.numbkpts ∧ s.numbkpts ≤ 8 ∧ Asc s.breakpoints s.numbkpts.toNat

/-- Every stored entry has a non-zero mode within the six mode bits. -/
def Store.ModesOk (s : Store) : Prop :=
  0 ≤ s.numbkpts ∧ ∀ j, j < s.numbkpts.toNat → 1 ≤ s.modes j ∧ s.modes j ≤ 0x3F

/-- The number held by a shift register that received the given bits, least
significant bit first. -/
def unpackBits : List Nat → Nat
  | [] => 0
  | b :: bs => b + 2 * unpackBits bs

/-- The 26 commands of one serialized push of the value `v`: command code
`CMD_LOAD_BRKPT`, parameter bit `i` of `v` in the `i`-th command. -/
def pushCmds (v : Nat) : List (Nat × Nat) :=
  (List.range 26).map fun i => (CMD_LOAD_BRKPT, (v >>> i) % 2)

theorem findAddr_some {bp : Nat → Nat} {a : Nat} : ∀ (cnt i k : Nat),
    findAddr bp a i cnt = some k →
      i ≤ k ∧ k < i + cnt ∧ bp k = a ∧ ∀ j, i ≤ j → j < k → bp j ≠ a := by
  intro cnt
  induction cnt with
  | zero => intro i k h; simp [findAddr] at h
  | succ c ih =>
    intro i k h
    unfold findAddr at h
    by_cases hb : bp i = a
    · rw [if_pos hb] at h
      cases h
      exact ⟨le_refl _, by omega, hb, fun j h1 h2 => by omega⟩
    · rw [if_neg hb] at h
      obtain ⟨h1, h2, h3, h4⟩ := ih (i + 1) k h
      refine ⟨by omega, by omega, h3, fun j hj1 hj2 => ?_⟩
      by_cases hji : j = i
      · subst hji; exact hb
      · exact h4 j (by omega) hj2

theorem findAddr_none {bp : Nat → Nat} {a : Nat} : ∀ (cnt i : Nat),
    findAddr bp a i cnt = none ↔ ∀ j, i ≤ j → j < i + cnt → bp j ≠ a := by
  intro cnt
  induction cnt with
  | zero => intro i; simp [findAddr]; intro j h1 h2; omega
  | succ c ih =>
    intro i
    unfold findAddr
    by_cases hb : bp i = a
    · rw [if_pos hb]
      simp only [reduceCtorEq, false_iff]
      intro h
      exact h i (le_refl _) (by omega) hb
    · rw [if_neg hb, ih]
      constructor
      · intro h j h1 h2
        by_cases hji : j = i
        · subst hji; exact hb
        · exact h j (by omega) (by omega)
      · intro h j h1 h2
        exact h j (by omega) (by omega)

/-- A stored address is found at its first occurrence. -/
theorem findAddr_of_mem {bp : Nat → Nat} {a : Nat} (cnt k : Nat)
    (hk : k < cnt) (hbk : bp k = a) (hfirst : ∀ j, j < k → bp j ≠ a) :
    findAddr bp a 0 cnt = some k := by
  cases h : findAddr bp a 0 cnt with
  | none =>
    rw [findAddr_none] at h
    exact absurd hbk (h k (Nat.zero_le _) (by omega))
  | some k' =>
    obtain ⟨_, h2, h3, h4⟩ := findAddr_some cnt 0 k' h
    by_cases hlt : k' < k
    · exact absurd h3 (hfirst k' hlt)
    · by_cases hgt : k < k'
      · exact absurd hbk (h4 k (Nat.zero_le _) hgt)
      · congr 1; omega

theorem insPos_le (bp : Nat → Nat) (a : Nat) : ∀ k, insPos bp a k ≤ k := by
  intro k
  induction k with
  | zero => simp [insPos]
  | succ k ih =>
    unfold insPos
    split
    · exact le_refl _
    · omega

theorem insPos_congr {bp bp2 : Nat → Nat} (a : Nat) : ∀ k, (∀ j, j < k → bp2 j = bp j) →
    insPos bp2 a k = insPos bp a k := by
  intro k
  induction k with
  | zero => intro _; rfl
  | succ k ih =>
    intro h
    unfold insPos
    rw [h k (by omega), ih (fun j hj => h j (by omega))]

theorem insPos_below (bp : Nat → Nat) (a : Nat) : ∀ k,
    insPos bp a k = 0 ∨ bp (insPos bp a k - 1) < a := by
  intro k
  induction k with
  | zero => left; rfl
  | succ k ih =>
    unfold insPos
    by_cases h : bp k < a
    · rw [if_pos h]; right; simpa using h
    · rw [if_neg h]; exact ih

theorem insPos_above (bp : Nat → Nat) (a : Nat) : ∀ k j,
    insPos bp a k ≤ j → j < k → ¬ bp j < a := by
  intro k
  induction k with
  | zero => intro j _ h; omega
  | succ k ih =>
    intro j h1 h2
    unfold insPos at h1
    by_cases h : bp k < a
    · rw [if_pos h] at h1; omega
    · rw [if_neg h] at h1
      by_cases hjk : j = k
      · subst hjk; exact h
      · exact ih j h1 (by omega)

theorem insArr_shift (old : Nat → Nat) (p k v : Nat) (hp : p ≤ k) :
    insArr (arrSet old (k + 1) (old k)) p k v = insArr old p (k + 1) v := by
  funext j
  unfold insArr arrSet
  by_cases h1 : j < p
  · have : j ≠ k + 1 := by omega
    simp [h1, this]
  · by_cases h2 : j = p
    · simp [h1, h2]
    · by_cases h3 : j ≤ k
      · have h4 : j - 1 ≠ k + 1 := by omega
        have h5 : j ≤ k + 1 := by omega
        simp [h1, h2, h3, h4, h5]
      · by_cases h6 : j = k + 1
        · subst h6; simp [h1, h2]
        · have h7 : ¬ j ≤ k + 1 := by omega
          simp [h1, h2, h3, h6, h7]

theorem insertLoop_spec (a m t : Nat) : ∀ (k : Nat) (s : Store),
    (insertLoop s a m t k).1.numbkpts = s.numbkpts ∧
    (insertLoop s a m t k).1.breakpoints = insArr s.breakpoints (insPos s.breakpoints a k) k a ∧
    (insertLoop s a m t k).1.modes = insArr s.modes (insPos s.breakpoints a k) k m ∧
    (insertLoop s a m t k).1.triggers = insArr s.triggers (insPos s.breakpoints a k) k t := by
  intro k
  induction k with
  | zero =>
    intro s
    refine ⟨rfl, ?_, ?_, ?_⟩ <;>
    · funext j
      simp only [insertLoop, setBreakpoint, insPos, insArr, arrSet]
      by_cases h : j = 0 <;> simp [h]
  | succ k ih =>
    intro s
    unfold insertLoop
    by_cases h : s.breakpoints k < a
    · rw [if_pos h]
      have hp : insPos s.breakpoints a (k + 1) = k + 1 := by simp [insPos, h]
      rw [hp]
      refine ⟨rfl, ?_, ?_, ?_⟩ <;>
      · funext j
        simp only [setBreakpoint, insArr, arrSet]
        by_cases h1 : j = k + 1
        · simp [h1]
        · by_cases h2 : j < k + 1
          · simp [h1, h2]
          · have : ¬ j ≤ k + 1 := by omega
            simp [h1, h2, this]
    · rw [if_neg h]
      have hp : insPos s.breakpoints a (k + 1) = insPos s.breakpoints a k := by simp [insPos, h]
      have hc : insPos (arrSet s.breakpoints (k + 1) (s.breakpoints k)) a k
          = insPos s.breakpoints a k :=
        insPos_congr a k (fun j hj => by simp [arrSet]; intro h; omega)
      have hle := insPos_le s.breakpoints a k
      obtain ⟨h1, h2, h3, h4⟩ := ih
        { s with
            breakpoints := arrSet s.breakpoints (k + 1) (s.breakpoints k)
            modes := arrSet s.modes (k + 1) (s.modes k)
            triggers := arrSet s.triggers (k + 1) (s.triggers k) }
      simp only [hc] at h2 h3 h4
      rw [hp]
      exact ⟨h1, by rw [h2, insArr_shift _ _ _ _ hle], by rw [h3, insArr_shift _ _ _ _ hle],
        by rw [h4, insArr_shift _ _ _ _ hle]⟩

theorem compArr_step (old : Nat → Nat) (i cnt : Nat) :
    compArr (arrSet old i (old (i + 1))) (i + 1) cnt = compArr old i (cnt + 1) := by
  funext j
  unfold compArr arrSet
  by_cases h1 : j = i
  · subst h1
    have : ¬ (j + 1 ≤ j ∧ j < j + 1 + cnt) := by omega
    simp [this]
  · by_cases h2 : i + 1 ≤ j ∧ j < i + 1 + cnt
    · have h3 : i ≤ j ∧ j < i + (cnt + 1) := by omega
      have h4 : j + 1 ≠ i := by omega
      simp [h2, h3, h4]
    · have h3 : ¬ (i ≤ j ∧ j < i + (cnt + 1)) := by omega
      simp [h1, h2, h3]

theorem compactLoop_spec : ∀ (cnt i : Nat) (s : Store),
    (compactLoop s i cnt).numbkpts = s.numbkpts ∧
    (compactLoop s i cnt).breakpoints = compArr s.breakpoints i cnt ∧
    (compactLoop s i cnt).modes = compArr s.modes i cnt ∧
    (compactLoop s i cnt).triggers = compArr s.triggers i cnt := by
  intro cnt
  induction cnt with
  | zero =>
    intro i s
    refine ⟨rfl, ?_, ?_, ?_⟩ <;>
    · funext j
      have : ¬ (i ≤ j ∧ j < i + 0) := by omega
      simp only [compactLoop, compArr, if_neg this]
  | succ c ih =>
    intro i s
    unfold compactLoop
    obtain ⟨h1, h2, h3, h4⟩ := ih (i + 1)
      { s with
          breakpoints := arrSet s.breakpoints i (s.breakpoints (i + 1))
          modes := arrSet s.modes i (s.modes (i + 1))
          triggers := arrSet s.triggers i (s.triggers (i + 1)) }
    exact ⟨h1, by rw [h2, compArr_step], by rw [h3, compArr_step], by rw [h4, compArr_step]⟩

theorem insArr_asc {bp : Nat → Nat} {a n : Nat} (hasc : Asc bp n)
    (hnew : ∀ j, j < n → bp j ≠ a) : Asc (insArr bp (insPos bp a n) n a) (n + 1) := by
  have hle := insPos_le bp a n
  have hbelow := insPos_below bp a n
  have habove := insPos_above bp a n
  generalize insPos bp a n = p at hle hbelow habove
  have hlow : ∀ i, i < p → bp i < a := by
    intro i hi
    rcases hbelow with h0 | hlt
    · omega
    · by_cases hip : i = p - 1
      · rw [hip]; exact hlt
      · exact lt_trans (hasc i (p - 1) (by omega) (by omega)) hlt
  have hhigh : ∀ j, p ≤ j → j < n → a < bp j := by
    intro j h1 h2
    have h3 := habove j h1 h2
    have h4 := hnew j h2
    omega
  intro i j hij hj
  unfold insArr
  by_cases hjp : j < p
  · have hip : i < p := by omega
    rw [if_pos hjp, if_pos hip]
    exact hasc i j hij (by omega)
  · rw [if_neg hjp]
    by_cases hjp2 : j = p
    · have hip : i < p := by omega
      rw [if_pos hjp2, if_pos hip]
      exact hlow i hip
    · have hjn : j ≤ n := by omega
      rw [if_neg hjp2, if_pos hjn]
      by_cases hip : i < p
      · rw [if_pos hip]
        exact hasc i (j - 1) (by omega) (by omega)
      · rw [if_neg hip]
        by_cases hip2 : i = p
        · rw [if_pos hip2]
          exact hhigh (j - 1) (by omega) (by omega)
        · have hin : i ≤ n := by omega
          rw [if_neg hip2, if_pos hin]
          exact hasc (i - 1) (j - 1) (by omega) (by omega)

theorem compArr_asc {bp : Nat → Nat} {k n : Nat} (hasc : Asc bp n) (hk : k < n) :
    Asc (compArr bp k (n - k)) (n - 1) := by
  intro i j hij hj
  unfold compArr
  by_cases hjk : k ≤ j ∧ j < k + (n - k)
  · rw [if_pos hjk]
    by_cases hik : k ≤ i ∧ i < k + (n - k)
    · rw [if_pos hik]; exact hasc (i + 1) (j + 1) (by omega) (by omega)
    · rw [if_neg hik]; exact hasc i (j + 1) (by omega) (by omega)
  · have hik : ¬ (k ≤ i ∧ i < k + (n - k)) := by omega
    rw [if_neg hjk, if_neg hik]
    exact hasc i j hij (by omega)

/-! ### Outcomes of the store commands -/

theorem arrSet_self (f : Nat → Nat) (i : Nat) : arrSet f i (f i) = f := by
  funext j
  unfold arrSet
  by_cases hj : j = i
  · rw [if_pos hj, hj]
  · rw [if_neg hj]

/-- The three outcomes of `doCmdBreak` when the address is already stored
(first at slot `i`). -/
theorem doCmdBreak_found (s : Store) (a : Nat) (t : Option Nat) (m i : Nat)
    (hf : findAddr s.breakpoints a 0 s.numbkpts.toNat = some i) :
    doCmdBreak s a t m =
      if s.modes i &&& m ≠ 0 then (s, [Msg.alreadySetAt m a])
      else
        ({ s with
            modes := arrSet s.modes i (s.modes i ||| m)
            triggers := arrSet s.triggers i
              (if t.getD UINT_MAX = UINT_MAX then s.triggers i else t.getD UINT_MAX) },
         [Msg.setAt (s.modes i ||| m) a]) := by
  obtain ⟨_, _, hbi, _⟩ := findAddr_some _ _ _ hf
  unfold doCmdBreak
  rw [hf]
  simp only
  split
  · rfl
  · simp only [setBreakpoint]
    rw [← hbi, arrSet_self]

theorem doCmdBreak_full (s : Store) (a : Nat) (t : Option Nat) (m : Nat)
    (hf : findAddr s.breakpoints a 0 s.numbkpts.toNat = none)
    (hfull : s.numbkpts = MAXBKPTS) :
    doCmdBreak s a t m = (s, [Msg.allSet s.numbkpts]) := by
  unfold doCmdBreak
  rw [hf]
  simp only
  rw [if_pos hfull]

theorem doCmdBreak_insert (s : Store) (a : Nat) (t : Option Nat) (m : Nat)
    (hf : findAddr s.breakpoints a 0 s.numbkpts.toNat = none)
    (h0 : 0 ≤ s.numbkpts) (hfull : s.numbkpts ≠ MAXBKPTS) :
    (doCmdBreak s a t m).1 =
      { numbkpts := s.numbkpts + 1
        breakpoints := insArr s.breakpoints
          (insPos s.breakpoints a s.numbkpts.toNat) s.numbkpts.toNat a
        modes := insArr s.modes
          (insPos s.breakpoints a s.numbkpts.toNat) s.numbkpts.toNat m
        triggers := insArr s.triggers
          (insPos s.breakpoints a s.numbkpts.toNat) s.numbkpts.toNat
          (if t.getD UINT_MAX = UINT_MAX then TRIGGER_ALWAYS else t.getD UINT_MAX) } := by
  unfold doCmdBreak
  rw [hf]
  simp only
  rw [if_neg hfull]
  have hg : (-1 : Int) ≤ s.numbkpts + 1 - 2 := by omega
  rw [if_pos hg]
  have hk : (s.numbkpts + 1 - 1).toNat = s.numbkpts.toNat := by simp
  rw [hk]
  obtain ⟨e1, e2, e3, e4⟩ := insertLoop_spec a m
    (if t.getD UINT_MAX = UINT_MAX then TRIGGER_ALWAYS else t.getD UINT_MAX)
    s.numbkpts.toNat { s with numbkpts := s.numbkpts + 1 }
  exact Store.ext e1 e2 e3 e4

theorem lookupBreakpoint_range (s : Store) (p : Option Nat)
    (h : ¬ (lookupBreakpoint s p).1 < 0) :
    0 ≤ (lookupBreakpoint s p).1 ∧ (lookupBreakpoint s p).1 < s.numbkpts := by
  refine ⟨by omega, ?_⟩
  revert h
  unfold lookupBreakpoint
  simp only
  split
  · intro _; assumption
  · intro h; exact absurd (show (-1 : Int) < 0 by decide) h

/-- The outcomes of `doCmdBClear`, with `n` the result of the lookup. -/
theorem doCmdBClear_cases (s : Store) (p : Option Nat) (b : Nat) :
    let n := (lookupBreakpoint s p).1
    let k := n.toNat
    let m := s.modes k &&& (UINT_MAX ^^^ b)
    (n < 0 ∧ (doCmdBClear s p b).1 = s) ∨
    (0 ≤ n ∧ n < s.numbkpts ∧ s.modes k &&& b = 0 ∧ (doCmdBClear s p b).1 = s) ∨
    (0 ≤ n ∧ n < s.numbkpts ∧ s.modes k &&& b ≠ 0 ∧ m ≠ 0 ∧
      (doCmdBClear s p b).1 = { s with modes := arrSet s.modes k m }) ∨
    (0 ≤ n ∧ n < s.numbkpts ∧ s.modes k &&& b ≠ 0 ∧ m = 0 ∧
      (doCmdBClear s p b).1 =
        { numbkpts := s.numbkpts - 1
          breakpoints := compArr s.breakpoints k (s.numbkpts.toNat - k)
          modes := compArr (arrSet s.modes k 0) k (s.numbkpts.toNat - k)
          triggers := compArr s.triggers k (s.numbkpts.toNat - k) }) := by
  intro n k m
  by_cases hn : n < 0
  · left
    refine ⟨hn, ?_⟩
    simp only [doCmdBClear]
    rw [if_pos hn]
  · right
    obtain ⟨h0, hlt⟩ := lookupBreakpoint_range s p hn
    by_cases hb : s.modes k &&& b = 0
    · left
      refine ⟨h0, hlt, hb, ?_⟩
      simp only [doCmdBClear]
      rw [if_neg hn]
      have : ¬ (s.modes k &&& b ≠ 0) := by simpa using hb
      rw [if_neg this]
    · right
      by_cases hm : m = 0
      · right
        refine ⟨h0, hlt, hb, hm, ?_⟩
        simp only [doCmdBClear]
        rw [if_neg hn, if_pos hb, if_pos hm]
        have hc : (s.numbkpts - n).toNat = s.numbkpts.toNat - k := by omega
        simp only
        rw [hc]
        obtain ⟨e1, e2, e3, e4⟩ := compactLoop_spec (s.numbkpts.toNat - k) k
          { s with modes := arrSet s.modes k m }
        refine Store.ext ?_ e2 ?_ e4
        · simp only; rw [e1]
        · simp only; rw [e3, hm]
      · left
        refine ⟨h0, hlt, hb, hm, ?_⟩
        simp only [doCmdBClear]
        rw [if_neg hn, if_pos hb, if_neg hm]

/-- The outcomes of `doCmdTrigger`, with `n` the result of the lookup. -/
theorem doCmdTrigger_cases (s : Store) (p c : Option Nat) :
    let n := (lookupBreakpoint s p).1
    (doCmdTrigger s p c).1 = s ∨
    (0 ≤ n ∧ n < s.numbkpts ∧ 0 ≤ toInt16 (c.getD UINT_MAX) ∧
      toInt16 (c.getD UINT_MAX) < 16 ∧
      (doCmdTrigger s p c).1 =
        { s with triggers := arrSet s.triggers n.toNat (toInt16 (c.getD UINT_MAX)).toNat }) := by
  intro n
  by_cases hn : n < 0
  · left
    simp only [doCmdTrigger]
    rw [if_pos hn]
  · obtain ⟨h0, hlt⟩ := lookupBreakpoint_range s p hn
    by_cases ht : 0 ≤ toInt16 (c.getD UINT_MAX) ∧ toInt16 (c.getD UINT_MAX) < NUM_TRIGGERS
    · right
      refine ⟨h0, hlt, ht.1, ht.2, ?_⟩
      simp only [doCmdTrigger]
      rw [if_neg hn, if_pos ht]
    · left
      simp only [doCmdTrigger]
      rw [if_neg hn, if_neg ht]

/-! ### Ordering invariant (C1) -/

theorem entries_length (s : Store) : s.entries.length = s.numbkpts.toNat := by
  simp [Store.entries]

theorem entries_getElem (s : Store) (i : Nat) (h : i < s.entries.length) :
    s.entries[i] = s.entry i := by
  simp [Store.entries]

theorem asc_iff_pairwise (s : Store) :
    Asc s.breakpoints s.numbkpts.toNat ↔
      (s.entries.map Entry.address).Pairwise (fun x y => x < y) := by
  rw [List.pairwise_iff_getElem]
  constructor
  · intro h i j hi hj hij
    simp only [List.length_map, entries_length] at hi hj
    simp only [List.getElem_map, entries_getElem, Store.entry]
    exact h i j hij hj
  · intro h i j hij hj
    have hj2 : j < (s.entries.map Entry.address).length := by
      simpa [entries_length] using hj
    have hi2 : i < (s.entries.map Entry.address).length := by omega
    have := h i j hi2 hj2 hij
    simpa only [List.getElem_map, entries_getElem, Store.entry] using this

theorem doCmdBreak_ordered (s : Store) (a : Nat) (t : Option Nat) (m : Nat)
    (h : s.Ordered) : (doCmdBreak s a t m).1.Ordered := by
  obtain ⟨h0, h8, hasc⟩ := h
  cases hf : findAddr s.breakpoints a 0 s.numbkpts.toNat with
  | some i =>
    rw [doCmdBreak_found s a t m i hf]
    split
    · exact ⟨h0, h8, hasc⟩
    · exact ⟨h0, h8, hasc⟩
  | none =>
    by_cases hfull : s.numbkpts = MAXBKPTS
    · rw [doCmdBreak_full s a t m hf hfull]; exact ⟨h0, h8, hasc⟩
    · rw [doCmdBreak_insert s a t m hf h0 hfull]
      have hlt : s.numbkpts < 8 := by
        have : s.numbkpts ≠ 8 := hfull
        omega
      rw [findAddr_none] at hf
      refine ⟨by simp only; omega, by simp only; omega, ?_⟩
      have hn : (s.numbkpts + 1).toNat = s.numbkpts.toNat + 1 := by omega
      simp only [hn]
      exact insArr_asc hasc (fun j hj => hf j (Nat.zero_le _) (by omega))

theorem doCmdBClear_ordered (s : Store) (p : Option Nat) (b : Nat)
    (h : s.Ordered) : (doCmdBClear s p b).1.Ordered := by
  obtain ⟨h0, h8, hasc⟩ := h
  rcases doCmdBClear_cases s p b with ⟨_, e⟩ | ⟨_, _, _, e⟩ | ⟨_, _, _, _, e⟩ | ⟨hn0, hn, _, _, e⟩
  · rw [e]; exact ⟨h0, h8, hasc⟩
  · rw [e]; exact ⟨h0, h8, hasc⟩
  · rw [e]; exact ⟨h0, h8, hasc⟩
  · rw [e]
    refine ⟨by simp only; omega, by simp only; omega, ?_⟩
    have hk : (s.numbkpts - 1).toNat = s.numbkpts.toNat - 1 := by omega
    simp only [hk]
    exact compArr_asc hasc (by omega)

theorem doCmdTrigger_ordered (s : Store) (p c : Option Nat)
    (h : s.Ordered) : (doCmdTrigger s p c).1.Ordered := by
  rcases doCmdTrigger_cases s p c with e | ⟨_, _, _, _, e⟩
  · rw [e]; exact h
  · rw [e]; exact h

theorem exec_ordered (s : Store) (c : Cmd) (h : s.Ordered) : (c.exec s).1.Ordered := by
  cases c <;> simp only [Cmd.exec, doCmdBreakI, doCmdBreakR, doCmdBreakW, doCmdWatchI,
    doCmdWatchR, doCmdWatchW, doCmdBClearI, doCmdBClearR, doCmdBClearW, doCmdWClearI,
    doCmdWClearR, doCmdWClearW]
  all_goals first
    | exact doCmdBreak_ordered _ _ _ _ h
    | exact doCmdBClear_ordered _ _ _ h
    | exact doCmdTrigger_ordered _ _ _ h

theorem run_ordered (cmds : List Cmd) : ∀ s : Store, s.Ordered → (run s cmds).Ordered := by
  induction cmds with
  | nil => intro s h; exact h
  | cons c cs ih => intro s h; exact ih _ (exec_ordered s c h)

theorem ordered_of_empty (s : Store) (h : s.numbkpts = 0) : s.Ordered := by
  refine ⟨by omega, by omega, ?_⟩
  intro i j _ hj
  rw [h] at hj
  simp at hj

/-- Claim C1 (store ordering invariant).  In every store reached from an empty
store (`numbkpts = 0`) by a finite sequence of the thirteen store commands
(the six set commands with any address and optional trigger, the six clear
commands, the trigger command), `0 ≤ numbkpts ≤ 8` and the addresses of the
stored entries `breakpoints[0 .. numbkpts-1]` are strictly ascending; hence no
two stored entries share an address. -/
theorem store_ordering_invariant (s0 : Store) (cmds : List Cmd) (h : s0.numbkpts = 0) :
    0 ≤ (run s0 cmds).numbkpts ∧ (run s0 cmds).numbkpts ≤ 8 ∧
    (((run s0 cmds).entries.map Entry.address).Pairwise fun x y => x < y) ∧
    ((run s0 cmds).entries.map Entry.address).Nodup := by
  obtain ⟨h0, h8, hasc⟩ := run_ordered cmds s0 (ordered_of_empty s0 h)
  have hp := (asc_iff_pairwise _).1 hasc
  refine ⟨h0, h8, hp, ?_⟩
  exact hp.imp (fun hxy => Nat.ne_of_lt hxy)

/-- Witness of C1: the invariant after a set, a set below it, a merge, a
clear that removes an entry and a trigger command addressed by index. -/
theorem store_ordering_invariant_witness :
    emptyStore.numbkpts = 0 ∧
    (0 ≤ (run emptyStore [Cmd.breaki 0x1234 none, Cmd.breakw 0x10 (some 3),
        Cmd.watchr 0x1234 none, Cmd.bclearw (some 0x10), Cmd.trigger (some 0) (some 5)]).numbkpts ∧
     (run emptyStore [Cmd.breaki 0x1234 none, Cmd.breakw 0x10 (some 3),
        Cmd.watchr 0x1234 none, Cmd.bclearw (some 0x10), Cmd.trigger (some 0) (some 5)]).numbkpts ≤ 8 ∧
     (((run emptyStore [Cmd.breaki 0x1234 none, Cmd.breakw 0x10 (some 3),
        Cmd.watchr 0x1234 none, Cmd.bclearw (some 0x10),
        Cmd.trigger (some 0) (some 5)]).entries.map Entry.address).Pairwise fun x y => x < y) ∧
     ((run emptyStore [Cmd.breaki 0x1234 none, Cmd.breakw 0x10 (some 3),
        Cmd.watchr 0x1234 none, Cmd.bclearw (some 0x10),
        Cmd.trigger (some 0) (some 5)]).entries.map Entry.address).Nodup) :=
  ⟨rfl, store_ordering_invariant emptyStore _ rfl⟩

/-! ### Insertion of a new address (C2) -/

theorem map_insArr_range (f g : Nat → Entry) (e : Entry) (p n : Nat) (hp : p ≤ n)
    (h1 : ∀ j, j < p → g j = f j) (h2 : g p = e)
    (h3 : ∀ j, p < j → j ≤ n → g j = f (j - 1)) :
    (List.range (n + 1)).map g =
      ((List.range n).map f).take p ++ e :: ((List.range n).map f).drop p := by
  apply List.ext_getElem
  · simp; omega
  · intro i hi1 hi2
    simp only [List.length_map, List.length_range] at hi1
    simp only [List.getElem_map, List.getElem_range]
    by_cases hip : i < p
    · rw [List.getElem_append_left (by simp; omega)]
      simp [h1 i hip]
    · rw [List.getElem_append_right (by simp; omega)]
      simp only [List.length_take, List.length_map, List.length_range]
      have hmin : min p n = p := by omega
      simp only [hmin]
      by_cases hip2 : i = p
      · subst hip2; simp [h2]
      · have : i - p = (i - p - 1) + 1 := by omega
        rw [List.getElem_cons (by simp; omega)]
        have hne : i - p ≠ 0 := by omega
        simp only [hne, ↓reduceDIte]
        simp only [List.getElem_drop, List.getElem_map, List.getElem_range]
        rw [h3 i (by omega) (by omega)]
        congr 1
        omega

theorem mem_addresses (s : Store) (a : Nat) :
    a ∈ s.entries.map Entry.address ↔ ∃ j, j < s.numbkpts.toNat ∧ s.breakpoints j = a := by
  simp only [Store.entries, List.map_map, List.mem_map, List.mem_range, Function.comp,
    Store.entry]

theorem findAddr_none_of_not_mem (s : Store) (a : Nat)
    (h : a ∉ s.entries.map Entry.address) :
    findAddr s.breakpoints a 0 s.numbkpts.toNat = none := by
  rw [findAddr_none]
  intro j _ hj hb
  exact h ((mem_addresses s a).2 ⟨j, by omega, hb⟩)

theorem findAddr_some_of_mem (s : Store) (a : Nat)
    (h : a ∈ s.entries.map Entry.address) :
    ∃ i, findAddr s.breakpoints a 0 s.numbkpts.toNat = some i := by
  cases hf : findAddr s.breakpoints a 0 s.numbkpts.toNat with
  | some i => exact ⟨i, rfl⟩
  | none =>
    rw [findAddr_none] at hf
    obtain ⟨j, hj, hb⟩ := (mem_addresses s a).1 h
    exact absurd hb (hf j (Nat.zero_le _) (by omega))

/-- In an ascending store the scan finds an address at the slot holding it. -/
theorem findAddr_of_asc (s : Store) (a i : Nat) (hasc : Asc s.breakpoints s.numbkpts.toNat)
    (hi : i < s.numbkpts.toNat) (hai : s.breakpoints i = a) :
    findAddr s.breakpoints a 0 s.numbkpts.toNat = some i := by
  apply findAddr_of_mem _ _ hi hai
  intro j hj hb
  have := hasc j i hj hi
  omega

theorem filter_split {α : Type} (P Q : α → Bool) (l1 l2 : List α)
    (h1 : ∀ x ∈ l1, P x = true ∧ Q x = false) (h2 : ∀ x ∈ l2, Q x = true ∧ P x = false) :
    (l1 ++ l2).filter P = l1 ∧ (l1 ++ l2).filter Q = l2 := by
  constructor
  · rw [List.filter_append, List.filter_eq_self.2 (fun x hx => (h1 x hx).1),
      List.filter_eq_nil_iff.2 (fun x hx => by simp [(h2 x hx).2]), List.append_nil]
  · rw [List.filter_append, List.filter_eq_self.2 (fun x hx => (h2 x hx).1),
      List.filter_eq_nil_iff.2 (fun x hx => by simp [(h1 x hx).2]), List.nil_append]

theorem entries_insert (s : Store) (a m t : Nat) (h0 : 0 ≤ s.numbkpts)
    (hasc : Asc s.breakpoints s.numbkpts.toNat)
    (hnew : ∀ j, j < s.numbkpts.toNat → s.breakpoints j ≠ a) :
    Store.entries
      { numbkpts := s.numbkpts + 1
        breakpoints := insArr s.breakpoints
          (insPos s.breakpoints a s.numbkpts.toNat) s.numbkpts.toNat a
        modes := insArr s.modes
          (insPos s.breakpoints a s.numbkpts.toNat) s.numbkpts.toNat m
        triggers := insArr s.triggers
          (insPos s.breakpoints a s.numbkpts.toNat) s.numbkpts.toNat t } =
      s.entries.filter (fun x => decide (x.address < a)) ++
        ⟨a, m, t⟩ :: s.entries.filter (fun x => decide (a < x.address)) := by
  have hle := insPos_le s.breakpoints a s.numbkpts.toNat
  have hbelow := insPos_below s.breakpoints a s.numbkpts.toNat
  have habove := insPos_above s.breakpoints a s.numbkpts.toNat
  generalize insPos s.breakpoints a s.numbkpts.toNat = p at hle hbelow habove
  have hlow : ∀ i, i < p → s.breakpoints i < a := by
    intro i hi
    rcases hbelow with h0 | hlt
    · omega
    · by_cases hip : i = p - 1
      · rw [hip]; exact hlt
      · exact lt_trans (hasc i (p - 1) (by omega) (by omega)) hlt
  have hhigh : ∀ j, p ≤ j → j < s.numbkpts.toNat → a < s.breakpoints j := by
    intro j h1 h2
    have h3 := habove j h1 h2
    have h4 := hnew j h2
    omega
  have hn : (s.numbkpts + 1).toNat = s.numbkpts.toNat + 1 := by omega
  have hsplit : Store.entries
      { numbkpts := s.numbkpts + 1
        breakpoints := insArr s.breakpoints p s.numbkpts.toNat a
        modes := insArr s.modes p s.numbkpts.toNat m
        triggers := insArr s.triggers p s.numbkpts.toNat t } =
      s.entries.take p ++ ⟨a, m, t⟩ :: s.entries.drop p := by
    unfold Store.entries
    simp only [hn]
    apply map_insArr_range _ _ _ _ _ hle
    · intro j hj
      simp [Store.entry, insArr, hj]
    · simp [Store.entry, insArr]
    · intro j h1 h2
      have h3 : ¬ j < p := by omega
      have h4 : j ≠ p := by omega
      simp [Store.entry, insArr, h3, h4, h2]
  rw [hsplit]
  have hl : ∀ x ∈ s.entries.take p,
      decide (x.address < a) = true ∧ decide (a < x.address) = false := by
    intro x hx
    obtain ⟨i, hi, rfl⟩ := List.mem_iff_getElem.1 hx
    simp only [List.length_take, entries_length] at hi
    simp only [List.getElem_take, entries_getElem, Store.entry]
    have := hlow i (by omega)
    simp only [decide_eq_true_eq, decide_eq_false_iff_not]
    omega
  have hr : ∀ x ∈ s.entries.drop p,
      decide (a < x.address) = true ∧ decide (x.address < a) = false := by
    intro x hx
    obtain ⟨i, hi, rfl⟩ := List.mem_iff_getElem.1 hx
    simp only [List.length_drop, entries_length] at hi
    simp only [List.getElem_drop, entries_getElem, Store.entry]
    have := hhigh (p + i) (by omega) (by omega)
    simp only [decide_eq_true_eq, decide_eq_false_iff_not]
    omega
  obtain ⟨e1, e2⟩ := filter_split _ _ _ _ hl hr
  rw [List.take_append_drop] at e1 e2
  rw [e1, e2]

theorem trigger_default (t : Option Nat) (d : Nat) :
    (if t.getD UINT_MAX = UINT_MAX then d else t.getD UINT_MAX) =
      (t.filter fun x => decide (x ≠ UINT_MAX)).getD d := by
  cases t with
  | none => simp
  | some x =>
    by_cases h : x = UINT_MAX
    · simp [Option.filter, h]
    · simp [Option.filter, h]

/-- Claim C2, amended (insert of a new address).  For a strictly ascending
store with fewer than 8 entries and an address `a` that is not stored,
`doCmdBreak` makes the count grow by one and produces the entry list made of
the old entries below `a`, the new entry `(a, mode, t)`, and the old entries
above `a`, which is again strictly ascending; every old entry is kept as it
was.  The trigger `t` is the explicit trigger when one is given and differs
from `0xFFFF`, and 15 (always) when none is given or `0xFFFF` is given: the
code uses the all-ones value to mean "no trigger given". -/
theorem insert_new_address (s : Store) (a m : Nat) (t : Option Nat)
    (h0 : 0 ≤ s.numbkpts) (h8 : s.numbkpts < 8)
    (hasc : (s.entries.map Entry.address).Pairwise fun x y => x < y)
    (hnew : a ∉ s.entries.map Entry.address) :
    (doCmdBreak s a t m).1.numbkpts = s.numbkpts + 1 ∧
    (doCmdBreak s a t m).1.entries =
      s.entries.filter (fun x => decide (x.address < a)) ++
        ⟨a, m, (t.filter fun x => decide (x ≠ UINT_MAX)).getD TRIGGER_ALWAYS⟩ ::
          s.entries.filter (fun x => decide (a < x.address)) ∧
    (((doCmdBreak s a t m).1.entries.map Entry.address).Pairwise fun x y => x < y) ∧
    (∀ e ∈ s.entries, e ∈ (doCmdBreak s a t m).1.entries) := by
  have hf := findAddr_none_of_not_mem s a hnew
  have hfull : s.numbkpts ≠ MAXBKPTS := by
    have : (MAXBKPTS : Int) = 8 := rfl
    omega
  have hascp := (asc_iff_pairwise s).2 hasc
  have hord : (doCmdBreak s a t m).1.Ordered :=
    doCmdBreak_ordered s a t m ⟨h0, by omega, hascp⟩
  have hnew2 : ∀ j, j < s.numbkpts.toNat → s.breakpoints j ≠ a :=
    fun j hj hb => hnew ((mem_addresses s a).2 ⟨j, hj, hb⟩)
  have hent : (doCmdBreak s a t m).1.entries =
      s.entries.filter (fun x => decide (x.address < a)) ++
        ⟨a, m, (t.filter fun x => decide (x ≠ UINT_MAX)).getD TRIGGER_ALWAYS⟩ ::
          s.entries.filter (fun x => decide (a < x.address)) := by
    rw [doCmdBreak_insert s a t m hf h0 hfull, entries_insert s a m _ h0 hascp hnew2,
      trigger_default]
  refine ⟨?_, hent, (asc_iff_pairwise _).1 hord.2.2, ?_⟩
  · rw [doCmdBreak_insert s a t m hf h0 hfull]
  · intro e he
    rw [hent]
    have hne : e.address ≠ a := fun h => hnew (List.mem_map.2 ⟨e, he, h⟩)
    simp only [List.mem_append, List.mem_filter, List.mem_cons, decide_eq_true_eq]
    by_cases hlt : e.address < a
    · exact Or.inl ⟨he, hlt⟩
    · exact Or.inr (Or.inr ⟨he, by omega⟩)

/-- Witness of C2: the scenario of the specification.  An instruction
breakpoint at 0x1234 on the empty store gives `[(0x1234, 0x01, 15)]`; a write
breakpoint at 0x0010 then gives `[(0x0010, 0x04, 15), (0x1234, 0x01, 15)]`. -/
theorem insert_new_address_witness :
    (0 : Int) ≤ (run emptyStore [Cmd.breaki 0x1234 none]).numbkpts ∧
    (run emptyStore [Cmd.breaki 0x1234 none]).numbkpts < 8 ∧
    (((run emptyStore [Cmd.breaki 0x1234 none]).entries.map Entry.address).Pairwise
      fun x y => x < y) ∧
    0x0010 ∉ (run emptyStore [Cmd.breaki 0x1234 none]).entries.map Entry.address ∧
    (run emptyStore [Cmd.breaki 0x1234 none]).entries = [⟨0x1234, 0x01, 15⟩] ∧
    (doCmdBreak (run emptyStore [Cmd.breaki 0x1234 none]) 0x0010 none 0x04).1.entries =
      [⟨0x0010, 0x04, 15⟩, ⟨0x1234, 0x01, 15⟩] :=
  ⟨by decide, by decide, by decide, by decide, by decide,
    (insert_new_address (run emptyStore [Cmd.breaki 0x1234 none]) 0x0010 0x04 none
      (by decide) (by decide) (by decide) (by decide)).2.1⟩

/-- Counterexample to C2 as stated: on the empty store, an instruction
breakpoint at 0x1234 with the explicit trigger 0xFFFF is stored with trigger
15, not with the explicit trigger. -/
theorem insert_explicit_trigger_counterexample :
    emptyStore.entries = [] ∧
    (doCmdBreak emptyStore 0x1234 (some 0xFFFF) 0x01).1.entries = [⟨0x1234, 0x01, 15⟩] ∧
    (doCmdBreak emptyStore 0x1234 (some 0xFFFF) 0x01).1.entries ≠ [⟨0x1234, 0x01, 0xFFFF⟩] := by
  decide

/-! ### Entry lists after an update or a removal -/

theorem entries_update (s : Store) (md tr : Nat → Nat) (i : Nat)
    (hmd : ∀ j, j ≠ i → md j = s.modes j) (htr : ∀ j, j ≠ i → tr j = s.triggers j) :
    Store.entries { s with modes := md, triggers := tr } =
      s.entries.set i ⟨s.breakpoints i, md i, tr i⟩ := by
  apply List.ext_getElem
  · simp [entries_length]
  · intro j h1 h2
    rw [entries_getElem, List.getElem_set]
    by_cases hij : i = j
    · subst hij; simp [Store.entry]
    · have hji : j ≠ i := fun h => hij h.symm
      simp only [hij, ↓reduceIte, entries_getElem, Store.entry, hmd j hji, htr j hji]

theorem entries_erase (s : Store) (k : Nat) (hk : k < s.numbkpts.toNat) (z : Nat) :
    Store.entries
      { numbkpts := s.numbkpts - 1
        breakpoints := compArr s.breakpoints k (s.numbkpts.toNat - k)
        modes := compArr (arrSet s.modes k z) k (s.numbkpts.toNat - k)
        triggers := compArr s.triggers k (s.numbkpts.toNat - k) } =
      s.entries.eraseIdx k := by
  have hn : (s.numbkpts - 1).toNat = s.numbkpts.toNat - 1 := by omega
  apply List.ext_getElem
  · rw [List.length_eraseIdx_of_lt (by rw [entries_length]; exact hk)]
    simp [entries_length, hn]
  · intro j h1 h2
    rw [entries_length] at h1
    simp only at h1
    rw [entries_getElem, List.getElem_eraseIdx]
    by_cases hjk : j < k
    · have h3 : ¬ (k ≤ j ∧ j < k + (s.numbkpts.toNat - k)) := by omega
      have h4 : j ≠ k := by omega
      simp [hjk, entries_getElem, Store.entry, compArr, arrSet, h3, h4]
    · have h3 : k ≤ j ∧ j < k + (s.numbkpts.toNat - k) := by omega
      have h4 : j + 1 ≠ k := by omega
      simp [hjk, entries_getElem, Store.entry, compArr, arrSet, h3, h4]

theorem lookupBreakpoint_found (s : Store) (a i : Nat)
    (hf : findAddr s.breakpoints a 0 s.numbkpts.toNat = some i) :
    lookupBreakpoint s (some a) = ((i : Int), []) := by
  obtain ⟨_, hi, _, _⟩ := findAddr_some _ _ _ hf
  unfold lookupBreakpoint
  simp only [Option.getD_some, hf]
  have : (i : Int) < s.numbkpts := by omega
  rw [if_pos this]

/-! ### Mode bits -/

theorem and_two_pow_ne_zero (x k : Nat) : x &&& 2 ^ k ≠ 0 ↔ x.testBit k = true := by
  constructor
  · intro h
    by_contra hb
    apply h
    apply Nat.eq_of_testBit_eq
    intro j
    rw [Nat.testBit_and, Nat.testBit_two_pow, Nat.zero_testBit]
    by_cases hkj : k = j
    · subst hkj; simp [hb]
    · simp [hkj]
  · intro hb h
    have : (x &&& 2 ^ k).testBit k = true := by
      rw [Nat.testBit_and, Nat.testBit_two_pow_self, hb]; rfl
    rw [h, Nat.zero_testBit] at this
    exact absurd this (by decide)

/-- Clearing bit `k` with the 16-bit complement of `1 << k`. -/
theorem testBit_clear (x k j : Nat) (hx : x < 65536) :
    (x &&& (UINT_MAX ^^^ 2 ^ k)).testBit j = (x.testBit j && decide (j ≠ k)) := by
  have h65 : UINT_MAX = 2 ^ 16 - 1 := rfl
  rw [Nat.testBit_and, Nat.testBit_xor, h65, Nat.testBit_two_pow_sub_one, Nat.testBit_two_pow]
  by_cases hj : j < 16
  · by_cases hkj : k = j
    · subst hkj; simp [hj]
    · have : j ≠ k := fun h => hkj h.symm
      simp [hj, hkj, this]
  · have hxj : x.testBit j = false := by
      apply Nat.testBit_lt_two_pow
      calc x < 2 ^ 16 := hx
        _ ≤ 2 ^ j := Nat.pow_le_pow_right (by decide) (by omega)
    simp [hxj]

theorem clear_eq_zero_iff (x k : Nat) (hx : x < 65536) (hb : x.testBit k = true) :
    x &&& (UINT_MAX ^^^ 2 ^ k) = 0 ↔ x = 2 ^ k := by
  constructor
  · intro h
    apply Nat.eq_of_testBit_eq
    intro j
    have := testBit_clear x k j hx
    rw [h, Nat.zero_testBit] at this
    rw [Nat.testBit_two_pow]
    by_cases hkj : k = j
    · subst hkj; simp [hb]
    · have hjk : j ≠ k := fun h => hkj h.symm
      simp only [hjk, ne_eq, not_false_eq_true, decide_True, Bool.and_true] at this
      simp [hkj, ← this]
  · intro h
    apply Nat.eq_of_testBit_eq
    intro j
    rw [testBit_clear x k j hx, Nat.zero_testBit, h, Nat.testBit_two_pow]
    by_cases hkj : k = j
    · subst hkj; simp
    · simp [hkj]

/-! ### Merge, full store and clearing (C3, C4, C5) -/

/-- Claim C3, amended (set on an existing address merges).  When `a` is
stored, let `i` be the first slot holding it.  `doCmdBreak` at `a` with mode
bits `m` never changes the count nor any other slot.  If the mode of the entry
has a bit in common with `m`, the store is left unchanged ("already set");
otherwise the mode becomes (old mode OR `m`) and the trigger becomes the
explicit trigger when one is given and differs from `0xFFFF`, and stays
unchanged when none is given or `0xFFFF` is given. -/
theorem set_existing_address (s : Store) (a m : Nat) (t : Option Nat)
    (h : a ∈ s.entries.map Entry.address) :
    ∃ i, i < s.entries.length ∧ s.breakpoints i = a ∧ (∀ j, j < i → s.breakpoints j ≠ a) ∧
      (doCmdBreak s a t m).1.numbkpts = s.numbkpts ∧
      (∀ j, j ≠ i → (doCmdBreak s a t m).1.entry j = s.entry j) ∧
      (s.modes i &&& m ≠ 0 → doCmdBreak s a t m = (s, [Msg.alreadySetAt m a])) ∧
      (s.modes i &&& m = 0 →
        (doCmdBreak s a t m).1.entries =
          s.entries.set i
            ⟨a, s.modes i ||| m,
              (t.filter fun x => decide (x ≠ UINT_MAX)).getD (s.triggers i)⟩) := by
  obtain ⟨i, hf⟩ := findAddr_some_of_mem s a h
  obtain ⟨_, hi, hbi, hfirst⟩ := findAddr_some _ _ _ hf
  have hcases := doCmdBreak_found s a t m i hf
  refine ⟨i, by rw [entries_length]; omega, hbi, fun j hj => hfirst j (Nat.zero_le _) hj,
    ?_, ?_, ?_, ?_⟩
  · rw [hcases]; split <;> rfl
  · intro j hj
    rw [hcases]
    split
    · rfl
    · simp [Store.entry, arrSet, hj]
  · intro hm
    rw [hcases, if_pos hm]
  · intro hm
    have hm2 : ¬ (s.modes i &&& m ≠ 0) := by simpa using hm
    rw [hcases, if_neg hm2]
    simp only
    rw [entries_update s _ _ i (fun j hj => by simp [arrSet, hj])
      (fun j hj => by simp [arrSet, hj])]
    simp only [arrSet, ↓reduceIte, hbi, trigger_default]

/-- Witness of C3: the scenario of the specification, a read watch set at the
stored address 0x1234 adds the read-watch bit and keeps two entries. -/
theorem set_existing_address_witness :
    ∃ i, i < (run emptyStore [Cmd.breaki 0x1234 none, Cmd.breakw 0x10 none]).entries.length ∧
      (run emptyStore [Cmd.breaki 0x1234 none, Cmd.breakw 0x10 none]).breakpoints i = 0x1234 ∧
      (doCmdBreak (run emptyStore [Cmd.breaki 0x1234 none, Cmd.breakw 0x10 none])
        0x1234 none 0x10).1.numbkpts = 2 ∧
      (doCmdBreak (run emptyStore [Cmd.breaki 0x1234 none, Cmd.breakw 0x10 none])
        0x1234 none 0x10).1.entries = [⟨0x10, 0x04, 15⟩, ⟨0x1234, 0x11, 15⟩] := by
  obtain ⟨i, h1, h2, h3, h4, _, _, h7⟩ :=
    set_existing_address (run emptyStore [Cmd.breaki 0x1234 none, Cmd.breakw 0x10 none])
      0x1234 0x10 none (by decide)
  exact ⟨i, h1, h2, h4, by decide⟩

/-- Counterexample to C3 as stated.  On the store `[(0x1234, 0x01, 15)]`:
with `m = 0x03` the mode 0x01 does not contain all bits of `m`, yet the store
stays as it is instead of getting mode 0x03; and with `m = 0x02` and the
explicit trigger 0xFFFF the trigger stays 15 instead of becoming 0xFFFF. -/
theorem set_existing_address_counterexample :
    (run emptyStore [Cmd.breaki 0x1234 none]).entries = [⟨0x1234, 0x01, 15⟩] ∧
    (0x01 &&& 0x03 ≠ 0x03) ∧
    (doCmdBreak (run emptyStore [Cmd.breaki 0x1234 none]) 0x1234 none 0x03).1.entries
      = [⟨0x1234, 0x01, 15⟩] ∧
    (doCmdBreak (run emptyStore [Cmd.breaki 0x1234 none]) 0x1234 none 0x03).1.entries
      ≠ [⟨0x1234, 0x01 ||| 0x03, 15⟩] ∧
    (0x01 &&& 0x02 ≠ 0x02) ∧
    (doCmdBreak (run emptyStore [Cmd.breaki 0x1234 none]) 0x1234 (some 0xFFFF) 0x02).1.entries
      = [⟨0x1234, 0x03, 15⟩] ∧
    (doCmdBreak (run emptyStore [Cmd.breaki 0x1234 none]) 0x1234 (some 0xFFFF) 0x02).1.entries
      ≠ [⟨0x1234, 0x03, 0xFFFF⟩] := by
  decide

/-- Claim C4 (a full store is left alone).  For a store holding 8 entries and
an address that is not stored, `doCmdBreak` with any mode bits, with or without
an explicit trigger, returns the very same store (count, addresses, modes and
triggers) and only reports that all 8 breakpoints are set. -/
theorem store_full_atomic (s : Store) (a m : Nat) (t : Option Nat)
    (h8 : s.numbkpts = 8) (hnew : a ∉ s.entries.map Entry.address) :
    doCmdBreak s a t m = (s, [Msg.allSet 8]) := by
  have hf := findAddr_none_of_not_mem s a hnew
  rw [doCmdBreak_full s a t m hf (by rw [h8]; rfl), h8]

/-- Witness of C4: eight instruction breakpoints at 1..8 fill the store; a
write breakpoint at the new address 9 with an explicit trigger changes
nothing. -/
theorem store_full_atomic_witness :
    (run emptyStore [Cmd.breaki 1 none, Cmd.breaki 2 none, Cmd.breaki 3 none,
      Cmd.breaki 4 none, Cmd.breaki 5 none, Cmd.breaki 6 none, Cmd.breaki 7 none,
      Cmd.breaki 8 none]).numbkpts = 8 ∧
    9 ∉ (run emptyStore [Cmd.breaki 1 none, Cmd.breaki 2 none, Cmd.breaki 3 none,
      Cmd.breaki 4 none, Cmd.breaki 5 none, Cmd.breaki 6 none, Cmd.breaki 7 none,
      Cmd.breaki 8 none]).entries.map Entry.address ∧
    doCmdBreak (run emptyStore [Cmd.breaki 1 none, Cmd.breaki 2 none, Cmd.breaki 3 none,
      Cmd.breaki 4 none, Cmd.breaki 5 none, Cmd.breaki 6 none, Cmd.breaki 7 none,
      Cmd.breaki 8 none]) 9 (some 3) 0x04 =
      (run emptyStore [Cmd.breaki 1 none, Cmd.breaki 2 none, Cmd.breaki 3 none,
        Cmd.breaki 4 none, Cmd.breaki 5 none, Cmd.breaki 6 none, Cmd.breaki 7 none,
        Cmd.breaki 8 none], [Msg.allSet 8]) :=
  ⟨by decide, by decide,
    store_full_atomic (run emptyStore [Cmd.breaki 1 none, Cmd.breaki 2 none,
      Cmd.breaki 3 none, Cmd.breaki 4 none, Cmd.breaki 5 none, Cmd.breaki 6 none,
      Cmd.breaki 7 none, Cmd.breaki 8 none]) 9 0x04 (some 3) (by decide) (by decide)⟩

/-- Claim C5 (clear semantics).  In a strictly ascending store let slot `i`
(below the count) hold address `a` with a 16-bit mode containing bit `k`.
Then `doCmdBClear(a, 1 << k)` behaves as follows.  If `1 << k` is the only mode
bit of the entry, the count drops by one and the stored entries are the old
ones with entry `i` removed, in the same order and intact.  If other mode bits
remain, the count is unchanged and the stored entries are the old ones except
that entry `i` has the old mode with bit `k` cleared (same address, same
trigger), which is not zero. -/
theorem clear_semantics (s : Store) (a i k : Nat)
    (hasc : (s.entries.map Entry.address).Pairwise fun x y => x < y)
    (hi : i < s.entries.length) (hai : s.breakpoints i = a)
    (h16 : s.modes i < 65536) (hb : (s.modes i).testBit k = true) :
    (s.modes i = 1 <<< k →
      (doCmdBClear s (some a) (1 <<< k)).1.numbkpts = s.numbkpts - 1 ∧
      (doCmdBClear s (some a) (1 <<< k)).1.entries = s.entries.eraseIdx i) ∧
    (s.modes i ≠ 1 <<< k →
      (doCmdBClear s (some a) (1 <<< k)).1.numbkpts = s.numbkpts ∧
      ∃ m, m ≠ 0 ∧ (∀ j, m.testBit j = ((s.modes i).testBit j && decide (j ≠ k))) ∧
        (doCmdBClear s (some a) (1 <<< k)).1.entries =
          s.entries.set i ⟨a, m, s.triggers i⟩) := by
  rw [entries_length] at hi
  have hascp := (asc_iff_pairwise s).2 hasc
  have hf := findAddr_of_asc s a i hascp hi hai
  have hl := lookupBreakpoint_found s a i hf
  have hcases := doCmdBClear_cases s (some a) (1 <<< k)
  simp only [hl, Int.toNat_ofNat, Nat.one_shiftLeft] at hcases
  rw [Nat.one_shiftLeft]
  have hand : s.modes i &&& 2 ^ k ≠ 0 := (and_two_pow_ne_zero _ _).2 hb
  have hz := clear_eq_zero_iff (s.modes i) k h16 hb
  rcases hcases with ⟨hn, _⟩ | ⟨_, _, h0, _⟩ | ⟨_, _, _, hm, e⟩ | ⟨_, _, _, hm, e⟩
  · omega
  · exact absurd h0 hand
  · constructor
    · intro h; exact absurd (hz.2 h) hm
    · intro _
      rw [e]
      refine ⟨rfl, _, hm, fun j => testBit_clear _ k j h16, ?_⟩
      have := entries_update s (arrSet s.modes i (s.modes i &&& (UINT_MAX ^^^ 2 ^ k)))
        s.triggers i (fun j hj => by simp [arrSet, hj]) (fun j _ => rfl)
      simp only [arrSet, ↓reduceIte, hai] at this
      exact this
  · constructor
    · intro _
      rw [e]
      exact ⟨rfl, entries_erase s i hi 0⟩
    · intro h; exact absurd (hz.1 hm) h

/-- Witness of C5 on the store `[(0x10, 0x04, 15), (0x1234, 0x11, 15)]`:
clearing the write breakpoint at 0x10 removes that entry, clearing the read
watch at 0x1234 keeps the entry with a non-zero mode. -/
theorem clear_semantics_witness :
    (doCmdBClear (run emptyStore [Cmd.breaki 0x1234 none, Cmd.breakw 0x10 none,
        Cmd.watchr 0x1234 none]) (some 0x10) (1 <<< 2)).1.entries = [⟨0x1234, 0x11, 15⟩] ∧
    ∃ m, m ≠ 0 ∧
      (doCmdBClear (run emptyStore [Cmd.breaki 0x1234 none, Cmd.breakw 0x10 none,
        Cmd.watchr 0x1234 none]) (some 0x1234) (1 <<< 4)).1.entries =
        [⟨0x10, 0x04, 15⟩, ⟨0x1234, m, 15⟩] := by
  have hA := (clear_semantics (run emptyStore [Cmd.breaki 0x1234 none, Cmd.breakw 0x10 none,
        Cmd.watchr 0x1234 none]) 0x10 0 2 (by decide) (by decide) (by decide) (by decide)
        (by decide)).1 (by decide)
  obtain ⟨_, m, hm, _, he⟩ :=
    (clear_semantics (run emptyStore [Cmd.breaki 0x1234 none, Cmd.breakw 0x10 none,
        Cmd.watchr 0x1234 none]) 0x1234 1 4 (by decide) (by decide) (by decide) (by decide)
        (by decide)).2 (by decide)
  exact ⟨hA.2, m, hm, he⟩

/-! ### Lookup failure (C6) and trigger range (C7) -/

theorem lookupBreakpoint_not_found (s : Store) (a : Nat)
    (hnew : a ∉ s.entries.map Entry.address) :
    lookupBreakpoint s (some a) =
      if toInt16 a < s.numbkpts then (toInt16 a, []) else (-1, [Msg.notSetAt (toInt16 a)]) := by
  have hf := findAddr_none_of_not_mem s a hnew
  unfold lookupBreakpoint
  simp only [Option.getD_some, hf]

/-- Claim C6, amended (not found leaves the store alone).  Let `a` be a
16-bit value that equals no stored address and is not below the count (so it
is not taken for a slot index either).  Then a clear command with any mode
bits and a trigger command with any code, referencing `a`, return the very
same store.  When moreover `a ≤ 0x7FFF`, `lookupBreakpoint` reports
"Breakpoint/watch not set" (and `doCmdTrigger` then lists the trigger
codes). -/
theorem not_found_atomic (s : Store) (a b : Nat) (c : Option Nat)
    (hnew : a ∉ s.entries.map Entry.address) (h16 : a < 65536)
    (hidx : s.numbkpts ≤ (a : Int)) :
    (doCmdBClear s (some a) b).1 = s ∧ (doCmdTrigger s (some a) c).1 = s ∧
    (a < 32768 →
      doCmdBClear s (some a) b = (s, [Msg.notSetAt a]) ∧
      doCmdTrigger s (some a) c = (s, [Msg.notSetAt a, Msg.triggerCodes])) := by
  have hl := lookupBreakpoint_not_found s a hnew
  have hneg : (lookupBreakpoint s (some a)).1 < 0 := by
    rw [hl]
    unfold toInt16
    by_cases h : a < 32768
    · have h2 : ¬ ((a : Int) < s.numbkpts) := by omega
      simp only [h, ↓reduceIte, h2]
      show (-1 : Int) < 0; decide
    · simp only [h, ↓reduceIte]
      split
      · simp only; omega
      · show (-1 : Int) < 0; decide
  refine ⟨?_, ?_, ?_⟩
  · simp only [doCmdBClear, if_pos hneg]
  · simp only [doCmdTrigger, if_pos hneg]
  · intro h
    have hl2 : lookupBreakpoint s (some a) = (-1, [Msg.notSetAt a]) := by
      rw [hl]
      have h2 : ¬ ((a : Int) < s.numbkpts) := by omega
      simp only [toInt16, h, ↓reduceIte, h2]
    constructor
    · simp only [doCmdBClear, if_pos hneg]
      rw [hl2]
    · simp only [doCmdTrigger, if_pos hneg]
      rw [hl2]
      rfl

/-- Witness of C6: on the store `[(0x1234, 0x01, 15)]` the value 0x0010 is
neither a stored address nor a slot index. -/
theorem not_found_atomic_witness :
    (doCmdBClear (run emptyStore [Cmd.breaki 0x1234 none]) (some 0x0010) 0x01).1 =
      run emptyStore [Cmd.breaki 0x1234 none] ∧
    doCmdTrigger (run emptyStore [Cmd.breaki 0x1234 none]) (some 0x0010) (some 3) =
      (run emptyStore [Cmd.breaki 0x1234 none], [Msg.notSetAt 0x0010, Msg.triggerCodes]) :=
  have h := not_found_atomic (run emptyStore [Cmd.breaki 0x1234 none]) 0x0010 0x01 (some 3)
    (by decide) (by decide) (by decide)
  ⟨h.1, (h.2.2 (by decide)).2⟩

/-- Counterexample to C6 as stated.  On the store `[(0x1234, 0x01, 15)]` the
value 0 equals no stored address, yet `lookupBreakpoint` takes it for slot
index 0: the clear command removes the entry and the trigger command rewrites
its trigger, neither reporting not-found.  The value 0x8000 equals no stored
address either and the clear command referencing it reports nothing. -/
theorem not_found_counterexample :
    (run emptyStore [Cmd.breaki 0x1234 none]).entries = [⟨0x1234, 0x01, 15⟩] ∧
    0 ∉ (run emptyStore [Cmd.breaki 0x1234 none]).entries.map Entry.address ∧
    (doCmdBClear (run emptyStore [Cmd.breaki 0x1234 none]) (some 0) 0x01).1.entries = [] ∧
    (doCmdBClear (run emptyStore [Cmd.breaki 0x1234 none]) (some 0) 0x01).2 =
      [Msg.removing 0x01 0x1234] ∧
    (doCmdTrigger (run emptyStore [Cmd.breaki 0x1234 none]) (some 0) (some 3)).1.entries =
      [⟨0x1234, 0x01, 3⟩] ∧
    (doCmdTrigger (run emptyStore [Cmd.breaki 0x1234 none]) (some 0) (some 3)).2 = [] ∧
    0x8000 ∉ (run emptyStore [Cmd.breaki 0x1234 none]).entries.map Entry.address ∧
    (doCmdBClear (run emptyStore [Cmd.breaki 0x1234 none]) (some 0x8000) 0x01).2 = [] := by
  decide

/-- Claim C7 at its failing input.  The set command `breaki 1234 20` on the
empty store stores the trigger code 0x20, which is outside 0..15, whereas the
trigger command given the same code for that entry rejects it as illegal and
leaves the stored trigger alone. -/
theorem trigger_range_failing_input :
    (run emptyStore [Cmd.breaki 0x1234 (some 0x20)]).entries = [⟨0x1234, 0x01, 0x20⟩] ∧
    ¬ (0x20 ≤ 15) ∧
    (doCmdTrigger (run emptyStore [Cmd.breaki 0x1234 none]) (some 0x1234) (some 0x20)).2 =
      [Msg.illegalTrigger] ∧
    (doCmdTrigger (run emptyStore [Cmd.breaki 0x1234 none]) (some 0x1234)
      (some 0x20)).1.entries = [⟨0x1234, 0x01, 15⟩] := by
  decide

/-! ### Mode invariant (C8) -/

theorem or_bit_bounds : ∀ x, x < 64 → ∀ k, k < 6 →
    1 ≤ x ||| 1 <<< k ∧ x ||| 1 <<< k ≤ 0x3F := by
  decide

theorem doCmdBreak_modesOk (s : Store) (a : Nat) (t : Option Nat) (k : Nat) (hk : k < 6)
    (h : s.ModesOk) : (doCmdBreak s a t (1 <<< k)).1.ModesOk := by
  obtain ⟨h0, hm⟩ := h
  cases hf : findAddr s.breakpoints a 0 s.numbkpts.toNat with
  | some i =>
    obtain ⟨_, hi, _, _⟩ := findAddr_some _ _ _ hf
    rw [doCmdBreak_found s a t _ i hf]
    split
    · exact ⟨h0, hm⟩
    · refine ⟨h0, fun j hj => ?_⟩
      simp only [arrSet]
      by_cases hji : j = i
      · rw [if_pos hji]
        exact or_bit_bounds (s.modes i) (by have := (hm i (by omega)).2; omega) k hk
      · rw [if_neg hji]; exact hm j hj
  | none =>
    by_cases hfull : s.numbkpts = MAXBKPTS
    · rw [doCmdBreak_full s a t _ hf hfull]; exact ⟨h0, hm⟩
    · rw [doCmdBreak_insert s a t _ hf h0 hfull]
      have hle := insPos_le s.breakpoints a s.numbkpts.toNat
      refine ⟨by simp only; omega, fun j hj => ?_⟩
      simp only at hj
      have hn : (s.numbkpts + 1).toNat = s.numbkpts.toNat + 1 := by omega
      rw [hn] at hj
      simp only [insArr]
      split
      · exact hm j (by omega)
      · split
        · have := or_bit_bounds 0 (by decide) k hk
          simpa using this
        · have hjn : j ≤ s.numbkpts.toNat := by omega
          rw [if_pos hjn]
          exact hm (j - 1) (by omega)

theorem doCmdBClear_modesOk (s : Store) (p : Option Nat) (b : Nat)
    (h : s.ModesOk) : (doCmdBClear s p b).1.ModesOk := by
  obtain ⟨h0, hm⟩ := h
  rcases doCmdBClear_cases s p b with ⟨_, e⟩ | ⟨_, _, _, e⟩ | ⟨hn0, hn, _, hne, e⟩ |
    ⟨hn0, hn, _, _, e⟩
  · rw [e]; exact ⟨h0, hm⟩
  · rw [e]; exact ⟨h0, hm⟩
  · rw [e]
    refine ⟨h0, fun j hj => ?_⟩
    simp only [arrSet]
    by_cases hji : j = (lookupBreakpoint s p).1.toNat
    · rw [if_pos hji]
      have hle : s.modes (lookupBreakpoint s p).1.toNat &&& (UINT_MAX ^^^ b) ≤
          s.modes (lookupBreakpoint s p).1.toNat := Nat.and_le_left
      have := (hm (lookupBreakpoint s p).1.toNat (by omega)).2
      omega
    · rw [if_neg hji]; exact hm j hj
  · rw [e]
    refine ⟨by simp only; omega, fun j hj => ?_⟩
    simp only at hj
    simp only [compArr, arrSet]
    split
    · have : j + 1 ≠ (lookupBreakpoint s p).1.toNat := by omega
      rw [if_neg this]
      exact hm (j + 1) (by omega)
    · have : j ≠ (lookupBreakpoint s p).1.toNat := by omega
      rw [if_neg this]
      exact hm j (by omega)

theorem doCmdTrigger_modesOk (s : Store) (p c : Option Nat)
    (h : s.ModesOk) : (doCmdTrigger s p c).1.ModesOk := by
  rcases doCmdTrigger_cases s p c with e | ⟨_, _, _, _, e⟩
  · rw [e]; exact h
  · rw [e]; exact h

theorem exec_modesOk (s : Store) (c : Cmd) (h : s.ModesOk) : (c.exec s).1.ModesOk := by
  cases c <;> simp only [Cmd.exec, doCmdBreakI, doCmdBreakR, doCmdBreakW, doCmdWatchI,
    doCmdWatchR, doCmdWatchW, doCmdBClearI, doCmdBClearR, doCmdBClearW, doCmdWClearI,
    doCmdWClearR, doCmdWClearW]
  all_goals first
    | exact doCmdBreak_modesOk _ _ _ _ (by decide) h
    | exact doCmdBClear_modesOk _ _ _ h
    | exact doCmdTrigger_modesOk _ _ _ h

theorem run_modesOk (cmds : List Cmd) : ∀ s : Store, s.ModesOk → (run s cmds).ModesOk := by
  induction cmds with
  | nil => intro s h; exact h
  | cons c cs ih => intro s h; exact ih _ (exec_modesOk s c h)

/-- Claim C8 (mode non-empty invariant).  In every store reached from an
empty store (`numbkpts = 0`) by a finite sequence of the six set commands, the
six clear commands and the trigger command, every stored entry has a mode that
is not zero and lies within the six mode bits, `0x01 ≤ mode ≤ 0x3F`. -/
theorem mode_nonempty_invariant (s0 : Store) (cmds : List Cmd) (h : s0.numbkpts = 0) :
    ∀ e ∈ (run s0 cmds).entries, e.mode ≠ 0 ∧ 0x01 ≤ e.mode ∧ e.mode ≤ 0x3F := by
  have hinit : s0.ModesOk := by
    refine ⟨by omega, fun j hj => ?_⟩
    rw [h] at hj
    simp at hj
  obtain ⟨_, hm⟩ := run_modesOk cmds s0 hinit
  intro e he
  obtain ⟨i, hi, rfl⟩ := List.mem_iff_getElem.1 he
  rw [entries_getElem]
  rw [entries_length] at hi
  have := hm i hi
  simp only [Store.entry]
  omega

/-- Witness of C8: the invariant after two sets on one address, a set on
another, two clears (one removing an entry) and a trigger command. -/
theorem mode_nonempty_invariant_witness :
    emptyStore.numbkpts = 0 ∧
    ∀ e ∈ (run emptyStore [Cmd.breaki 0x1234 none, Cmd.watchw 0x1234 none,
        Cmd.breakr 0x10 (some 2), Cmd.bcleari (some 0x1234), Cmd.bclearr (some 0x10),
        Cmd.trigger (some 0x1234) (some 7)]).entries,
      e.mode ≠ 0 ∧ 0x01 ≤ e.mode ∧ e.mode ≤ 0x3F :=
  ⟨rfl, mode_nonempty_invariant emptyStore _ rfl⟩

/-! ### Serializer (C9) -/

theorem hwCmd_cmds (c p : Nat) (h : Hw) : (hwCmd c p h).cmds = h.cmds ++ [(c, p)] := rfl

theorem shiftLoop_cmds : ∀ (cnt reg : Nat) (h : Hw),
    (shiftLoop reg cnt h).cmds =
      h.cmds ++ (List.range cnt).map fun i => (CMD_LOAD_BRKPT, (reg >>> i) % 2) := by
  intro cnt
  induction cnt with
  | zero => intro reg h; simp [shiftLoop]
  | succ n ih =>
    intro reg h
    unfold shiftLoop
    rw [ih, hwCmd_cmds, List.range_succ_eq_map, List.append_assoc]
    congr 1
    simp only [List.map_cons, List.map_map, List.singleton_append, Nat.shiftRight_zero,
      Nat.and_one_is_mod]
    congr 1
    apply List.map_congr_left
    intro i _
    simp only [Function.comp, Nat.succ_eq_add_one]
    rw [Nat.add_comm i 1, Nat.shiftRight_add]

theorem shiftBreakpointRegister_cmds (addr mode trigger : Nat) (h : Hw) :
    (shiftBreakpointRegister addr mode trigger h).cmds =
      h.cmds ++ pushCmds (shiftBreakpointRegister_reg addr mode trigger) := by
  unfold shiftBreakpointRegister pushCmds
  rw [shiftLoop_cmds]

theorem unpackBits_bits : ∀ (n v : Nat),
    unpackBits ((List.range n).map fun i => (v >>> i) % 2) = v % 2 ^ n := by
  intro n
  induction n with
  | zero => intro v; simp [unpackBits, Nat.mod_one]
  | succ n ih =>
    intro v
    rw [List.range_succ_eq_map]
    simp only [List.map_cons, List.map_map, unpackBits, Nat.shiftRight_zero]
    have : (List.range n).map ((fun i => (v >>> i) % 2) ∘ Nat.succ) =
        (List.range n).map fun i => ((v >>> 1) >>> i) % 2 := by
      apply List.map_congr_left
      intro i _
      simp only [Function.comp, Nat.succ_eq_add_one]
      rw [Nat.add_comm i 1, Nat.shiftRight_add]
    rw [this, ih, Nat.pow_succ', Nat.mod_mul, Nat.shiftRight_eq_div_pow, Nat.pow_one]

theorem reg_eq_arith (addr mode trigger : Nat)
    (ha : addr ≤ 0xFFFF) (hm : mode ≤ 0x3F) (ht : trigger ≤ 15) :
    shiftBreakpointRegister_reg addr mode trigger = trigger * 2 ^ 22 + mode * 2 ^ 16 + addr := by
  unfold shiftBreakpointRegister_reg
  have e1 : (trigger <<< 6) % 2 ^ 32 = 2 ^ 6 * trigger := by
    rw [Nat.shiftLeft_eq, Nat.mod_eq_of_lt (by omega)]; omega
  have e2 : 2 ^ 6 * trigger ||| mode = 2 ^ 6 * trigger + mode :=
    (Nat.mul_add_lt_is_or (by omega) trigger).symm
  have e3 : ((2 ^ 6 * trigger + mode) <<< 16) % 2 ^ 32 = 2 ^ 16 * (2 ^ 6 * trigger + mode) := by
    rw [Nat.shiftLeft_eq, Nat.mod_eq_of_lt (by omega)]; omega
  have e4 : 2 ^ 16 * (2 ^ 6 * trigger + mode) ||| addr = 2 ^ 16 * (2 ^ 6 * trigger + mode) + addr :=
    (Nat.mul_add_lt_is_or (by omega) _).symm
  rw [e1, e2, e3, e4]
  omega

theorem packed_eq_arith (addr mode trigger : Nat)
    (ha : addr ≤ 0xFFFF) (hm : mode ≤ 0x3F) :
    (trigger <<< 22) ||| (mode <<< 16) ||| addr = trigger * 2 ^ 22 + mode * 2 ^ 16 + addr := by
  have e1 : mode <<< 16 = 2 ^ 16 * mode := by rw [Nat.shiftLeft_eq]; omega
  have e0 : trigger <<< 22 = 2 ^ 22 * trigger := by rw [Nat.shiftLeft_eq]; omega
  have e2 : 2 ^ 22 * trigger ||| 2 ^ 16 * mode = 2 ^ 22 * trigger + 2 ^ 16 * mode := by
    have := Nat.mul_add_lt_is_or (show 2 ^ 16 * mode < 2 ^ 22 by omega) trigger
    exact this.symm
  have e3 : 2 ^ 22 * trigger + 2 ^ 16 * mode = 2 ^ 16 * (2 ^ 6 * trigger + mode) := by omega
  have e4 : 2 ^ 16 * (2 ^ 6 * trigger + mode) ||| addr = 2 ^ 16 * (2 ^ 6 * trigger + mode) + addr :=
    (Nat.mul_add_lt_is_or (by omega) _).symm
  rw [e0, e1, e2, e3, e4]
  omega

/-- Claim C9 (serialization round trip and bit order).  For an address in
0..0xFFFF, a mode in 0..0x3F and a trigger in 0..15, let
`v = (trigger << 22) | (mode << 16) | address`.  Then
`shiftBreakpointRegister` issues exactly 26 hardware commands, all with code
`CMD_LOAD_BRKPT`, the `i`-th with parameter bit `i` of `v`; the bits pushed,
read back least significant first, give `v`; and `v >> 22`,
`(v >> 16) & 0x3F`, `v & 0xFFFF` are the trigger, the mode and the address. -/
theorem serialization_round_trip (addr mode trigger : Nat) (h : Hw)
    (ha : addr ≤ 0xFFFF) (hm : mode ≤ 0x3F) (ht : trigger ≤ 15) :
    (shiftBreakpointRegister addr mode trigger h).cmds =
      h.cmds ++ (List.range 26).map
        (fun i => (CMD_LOAD_BRKPT, (((trigger <<< 22) ||| (mode <<< 16) ||| addr) >>> i) % 2)) ∧
    ((shiftBreakpointRegister addr mode trigger h).cmds.drop h.cmds.length).length = 26 ∧
    (∀ c ∈ (shiftBreakpointRegister addr mode trigger h).cmds.drop h.cmds.length,
      c.1 = CMD_LOAD_BRKPT) ∧
    unpackBits
      (((shiftBreakpointRegister addr mode trigger h).cmds.drop h.cmds.length).map Prod.snd) =
        (trigger <<< 22) ||| (mode <<< 16) ||| addr ∧
    ((trigger <<< 22) ||| (mode <<< 16) ||| addr) >>> 22 = trigger ∧
    ((((trigger <<< 22) ||| (mode <<< 16) ||| addr) >>> 16) &&& 0x3F) = mode ∧
    (((trigger <<< 22) ||| (mode <<< 16) ||| addr) &&& 0xFFFF) = addr := by
  have hv := packed_eq_arith addr mode trigger ha hm
  have hreg := reg_eq_arith addr mode trigger ha hm ht
  have hcmds := shiftBreakpointRegister_cmds addr mode trigger h
  rw [hreg, ← hv] at hcmds
  unfold pushCmds at hcmds
  have hdrop : (shiftBreakpointRegister addr mode trigger h).cmds.drop h.cmds.length =
      (List.range 26).map
        (fun i => (CMD_LOAD_BRKPT, (((trigger <<< 22) ||| (mode <<< 16) ||| addr) >>> i) % 2)) := by
    rw [hcmds, List.drop_left]
  refine ⟨hcmds, ?_, ?_, ?_, ?_, ?_, ?_⟩
  · rw [hdrop]; simp
  · intro c hc
    rw [hdrop] at hc
    obtain ⟨i, _, rfl⟩ := List.mem_map.1 hc
    rfl
  · rw [hdrop, List.map_map]
    have : (Prod.snd ∘ fun i =>
        (CMD_LOAD_BRKPT, (((trigger <<< 22) ||| (mode <<< 16) ||| addr) >>> i) % 2)) =
        fun i => (((trigger <<< 22) ||| (mode <<< 16) ||| addr) >>> i) % 2 := rfl
    rw [this, unpackBits_bits, hv]
    apply Nat.mod_eq_of_lt
    omega
  · rw [hv, Nat.shiftRight_eq_div_pow]; omega
  · rw [hv, Nat.shiftRight_eq_div_pow]
    have : (0x3F : Nat) = 2 ^ 6 - 1 := rfl
    rw [this, Nat.and_pow_two_sub_one_eq_mod]
    omega
  · rw [hv]
    have : (0xFFFF : Nat) = 2 ^ 16 - 1 := rfl
    rw [this, Nat.and_pow_two_sub_one_eq_mod]
    omega

/-- Witness of C9 at the boundary values: address 0xFFFF, mode 0x3F, trigger
15 pushes 26 one bits; address 0, mode 0, trigger 0 pushes 26 zero bits; and
the bits pushed for (0x1234, 0x01, 15) read back as 0x3C11234. -/
theorem serialization_round_trip_witness :
    (shiftBreakpointRegister 0xFFFF 0x3F 15 ⟨0, 0, [], []⟩).cmds =
      List.replicate 26 (CMD_LOAD_BRKPT, 1) ∧
    (shiftBreakpointRegister 0x0000 0 0 ⟨0, 0, [], []⟩).cmds =
      List.replicate 26 (CMD_LOAD_BRKPT, 0) ∧
    unpackBits (((shiftBreakpointRegister 0x1234 0x01 15 ⟨0, 0, [], []⟩).cmds.drop 0).map
      Prod.snd) = 0x3C11234 :=
  ⟨(serialization_round_trip 0xFFFF 0x3F 15 ⟨0, 0, [], []⟩ (by decide) (by decide)
      (by decide)).1.trans (by decide),
   (serialization_round_trip 0x0000 0 0 ⟨0, 0, [], []⟩ (by decide) (by decide)
      (by decide)).1.trans (by decide),
   (serialization_round_trip 0x1234 0x01 15 ⟨0, 0, [], []⟩ (by decide) (by decide)
      (by decide)).2.2.2.1.trans (by decide)⟩

/-! ### Arming (C10) -/

theorem pushCmds_zero : pushCmds (shiftBreakpointRegister_reg 0 0 0) =
    List.replicate 26 (CMD_LOAD_BRKPT, 0) := by
  decide

theorem pushCmds_length (v : Nat) : (pushCmds v).length = 26 := by
  simp [pushCmds]

theorem pushCmds_code (v : Nat) : ∀ c ∈ pushCmds v, c.1 = CMD_LOAD_BRKPT := by
  intro c hc
  obtain ⟨i, _, rfl⟩ := List.mem_map.1 hc
  rfl

theorem loadLoop_cmds (s : Store) : ∀ (cnt i : Nat) (h : Hw),
    (loadLoop s i cnt h).cmds =
      h.cmds ++ ((List.range' i cnt).map fun j =>
        pushCmds (shiftBreakpointRegister_reg (s.entry j).address (s.entry j).mode
          (s.entry j).trigger)).flatten := by
  intro cnt
  induction cnt with
  | zero => intro i h; simp [loadLoop]
  | succ n ih =>
    intro i h
    unfold loadLoop
    rw [ih, shiftBreakpointRegister_cmds, List.range'_succ, List.map_cons, List.flatten_cons,
      List.append_assoc]
    rfl

theorem zeroLoop_cmds : ∀ (cnt : Nat) (h : Hw),
    (zeroLoop cnt h).cmds =
      h.cmds ++ (List.replicate cnt (List.replicate 26 (CMD_LOAD_BRKPT, 0))).flatten := by
  intro cnt
  induction cnt with
  | zero => intro h; simp [zeroLoop]
  | succ n ih =>
    intro h
    unfold zeroLoop
    rw [ih, shiftBreakpointRegister_cmds, pushCmds_zero, List.append_assoc]
    rfl

theorem hwRead8_cmds (o : Nat) (mux : Nat → Nat) (h : Hw) : (hwRead8 o mux h).2.cmds = h.cmds :=
  rfl

theorem hwRead16_cmds (o : Nat) (mux : Nat → Nat) (h : Hw) :
    (hwRead16 o mux h).2.cmds = h.cmds := rfl

theorem logDetails_cmds (mux : Nat → Nat) (m : Mon) :
    (logDetails mux m).2.hw.cmds = m.hw.cmds := rfl

theorem pollBody_cmds (p : Poll) (c : Nat) (m : Mon) :
    ∃ r, (pollBody p c m).2.hw.cmds = m.hw.cmds ++ r := by
  unfold pollBody
  by_cases h1 : p.status &&& BW_ACTIVE_MASK ≠ 0 <;>
  by_cases h2 : p.status &&& INTERRUPTED_MASK ≠ 0 ∨ p.serial = true
  · exact ⟨[(CMD_WATCH_READ, 0)], by simp only [if_pos h1, if_pos h2, hwCmd_cmds, logDetails_cmds]⟩
  · exact ⟨[(CMD_WATCH_READ, 0)], by simp only [if_pos h1, if_neg h2, hwCmd_cmds, logDetails_cmds]⟩
  · exact ⟨[], by simp only [if_neg h1, if_pos h2, List.append_nil]⟩
  · exact ⟨[], by simp only [if_neg h1, if_neg h2, List.append_nil]⟩

theorem pollLoop_cmds : ∀ (ps : List Poll) (c : Nat) (m : Mon),
    ∃ r, (pollLoop ps c m).1.hw.cmds = m.hw.cmds ++ r := by
  intro ps
  induction ps with
  | nil => intro c m; exact ⟨[], by simp [pollLoop]⟩
  | cons p ps ih =>
    intro c m
    obtain ⟨r1, h1⟩ := pollBody_cmds p c m
    unfold pollLoop
    simp only
    split
    · obtain ⟨r2, h2⟩ := ih (pollBody p c m).1 (pollBody p c m).2
      exact ⟨r1 ++ r2, by rw [h2, h1, List.append_assoc]⟩
    · exact ⟨r1, h1⟩

theorem doCmdContinue_stop_cmds (after : Poll) (m : Mon) :
    (doCmdContinue_stop after m).hw.cmds =
      m.hw.cmds ++ [(CMD_SINGLE_ENABLE, 1), (CMD_BRKPT_ENABLE, 0)] := by
  simp [doCmdContinue_stop, doCmdAddr, setSingle, hwRead16_cmds, hwCmd_cmds]

theorem doCmdContinue_arm_cmds (m : Mon) (h0 : 0 ≤ m.store.numbkpts) :
    (doCmdContinue_arm m).hw.cmds =
      m.hw.cmds ++ [(CMD_STEP, 0), (CMD_BRKPT_ENABLE, 0)] ++
        ((m.store.entries.map fun e =>
            pushCmds (shiftBreakpointRegister_reg e.address e.mode e.trigger)).flatten ++
          (List.replicate (8 - m.store.entries.length)
            (List.replicate 26 (CMD_LOAD_BRKPT, 0))).flatten) ++
        [(CMD_BRKPT_ENABLE, 1), (CMD_SINGLE_ENABLE, 0)] := by
  have hz : ((MAXBKPTS : Int) - m.store.numbkpts).toNat = 8 - m.store.entries.length := by
    rw [entries_length]
    have : (MAXBKPTS : Int) = 8 := rfl
    omega
  have hl : (m.store.entries.map fun e =>
      pushCmds (shiftBreakpointRegister_reg e.address e.mode e.trigger)) =
      (List.range' 0 m.store.numbkpts.toNat).map fun j =>
        pushCmds (shiftBreakpointRegister_reg (m.store.entry j).address (m.store.entry j).mode
          (m.store.entry j).trigger) := by
    rw [Store.entries, List.map_map, List.range_eq_range']
    rfl
  rw [hl]
  simp only [doCmdContinue_arm, setSingle, hwCmd_cmds, zeroLoop_cmds, loadLoop_cmds, hz]
  simp

/-- Claim C10 (arming rewrites the whole bank).  For a store with count `n`
in 0..8, whatever the environment does afterwards, the hardware commands
`doCmdContinue` issues are: the single-step pulse, the breakpoint-disable
command `(CMD_BRKPT_ENABLE, 0)`, then the list `mid`, then the
breakpoint-enable command `(CMD_BRKPT_ENABLE, 1)`, then the rest.  Here `mid`
is the pushes of the `n` stored entries in store order followed by `8 - n`
pushes of 26 zero bits; it has 8 x 26 = 208 commands, all with code
`CMD_LOAD_BRKPT`, and the push of a stored entry is what
`shiftBreakpointRegister` issues for it. -/
theorem arming_rewrites_bank (m : Mon) (polls : List Poll) (after : Poll)
    (mid : List (Nat × Nat))
    (h0 : 0 ≤ m.store.numbkpts) (h8 : m.store.numbkpts ≤ 8)
    (hmid : mid =
      (m.store.entries.map fun e : Entry =>
          pushCmds (shiftBreakpointRegister_reg e.address e.mode e.trigger)).flatten ++
        (List.replicate (8 - m.store.entries.length)
          (List.replicate 26 (CMD_LOAD_BRKPT, 0))).flatten) :
    (∃ rest, (doCmdContinue m polls after).1.hw.cmds =
      m.hw.cmds ++ [(CMD_STEP, 0), (CMD_BRKPT_ENABLE, 0)] ++ mid ++
        (CMD_BRKPT_ENABLE, 1) :: rest) ∧
    mid.length = 8 * 26 ∧
    (∀ c ∈ mid, c.1 = CMD_LOAD_BRKPT) ∧
    (∀ e ∈ m.store.entries, ∀ h : Hw,
      (shiftBreakpointRegister e.address e.mode e.trigger h).cmds =
        h.cmds ++ pushCmds (shiftBreakpointRegister_reg e.address e.mode e.trigger)) := by
  have harm := doCmdContinue_arm_cmds m h0
  rw [← hmid] at harm
  refine ⟨?_, ?_, ?_, ?_⟩
  · obtain ⟨r, hr⟩ := pollLoop_cmds polls 1 (doCmdContinue_arm m)
    unfold doCmdContinue
    simp only
    split
    · refine ⟨(CMD_SINGLE_ENABLE, 0) :: r, ?_⟩
      rw [hr, harm]
      simp
    · refine ⟨(CMD_SINGLE_ENABLE, 0) :: (r ++ [(CMD_SINGLE_ENABLE, 1), (CMD_BRKPT_ENABLE, 0)]), ?_⟩
      rw [doCmdContinue_stop_cmds, hr, harm]
      simp
  · have hlen : m.store.entries.length ≤ 8 := by rw [entries_length]; omega
    have hsum : ∀ l : List Entry, ((l.map fun e : Entry =>
        pushCmds (shiftBreakpointRegister_reg e.address e.mode e.trigger)).flatten).length =
        l.length * 26 := by
      intro l
      induction l with
      | nil => rfl
      | cons e es ih =>
        rw [List.map_cons, List.flatten_cons, List.length_append, ih, pushCmds_length,
          List.length_cons]
        omega
    rw [hmid, List.length_append, hsum, List.flatten_replicate_replicate, List.length_replicate]
    omega
  · intro c hc
    rw [hmid] at hc
    rcases List.mem_append.1 hc with h | h
    · obtain ⟨l, hl, hcl⟩ := List.mem_flatten.1 h
      obtain ⟨e, _, rfl⟩ := List.mem_map.1 hl
      exact pushCmds_code _ c hcl
    · obtain ⟨l, hl, hcl⟩ := List.mem_flatten.1 h
      rw [(List.mem_replicate.1 hl).2] at hcl
      rw [(List.mem_replicate.1 hcl).2]
  · intro e _ h
    exact shiftBreakpointRegister_cmds _ _ _ h

/-- Witness of C10: arming with two stored entries, against an environment
whose first pass reports a breakpoint hit. -/
theorem arming_rewrites_bank_witness :
    (0 : Int) ≤ (run emptyStore [Cmd.breaki 0x1234 none, Cmd.breakw 0x10 none]).numbkpts ∧
    (run emptyStore [Cmd.breaki 0x1234 none, Cmd.breakw 0x10 none]).numbkpts ≤ 8 ∧
    ∃ rest,
      (doCmdContinue
        ⟨run emptyStore [Cmd.breaki 0x1234 none, Cmd.breakw 0x10 none], ⟨0, 0, [], []⟩, 1, 0, []⟩
        [⟨0x80, fun _ => 0, false⟩] ⟨0, fun _ => 0, false⟩).1.hw.cmds =
      [(CMD_STEP, 0), (CMD_BRKPT_ENABLE, 0)] ++
        (pushCmds 0x3C40010 ++ pushCmds 0x3C11234 ++
          (List.replicate 6 (List.replicate 26 (CMD_LOAD_BRKPT, 0))).flatten) ++
        (CMD_BRKPT_ENABLE, 1) :: rest :=
  ⟨by decide, by decide,
    (arming_rewrites_bank
      ⟨run emptyStore [Cmd.breaki 0x1234 none, Cmd.breakw 0x10 none], ⟨0, 0, [], []⟩, 1, 0, []⟩
      [⟨0x80, fun _ => 0, false⟩] ⟨0, fun _ => 0, false⟩
      (pushCmds 0x3C40010 ++ pushCmds 0x3C11234 ++
          (List.replicate 6 (List.replicate 26 (CMD_LOAD_BRKPT, 0))).flatten)
      (by decide) (by decide) rfl).1⟩

/-! ### Mux selection and reads -/

set_option maxRecDepth 100000 in
theorem slot_select : ∀ y, y < 256 → ∀ k, k < 16 →
    (((y &&& (0xFF ^^^ MUXSEL_MASK)) ||| (k <<< MUXSEL_BIT)) % 256) &&& MUXSEL_MASK = k ∧
    (((y &&& (0xFF ^^^ MUXSEL_MASK)) ||| (k <<< MUXSEL_BIT)) % 256) &&& 0xF0 = y &&& 0xF0 := by
  decide

set_option maxRecDepth 100000 in
theorem slot_select_next : ∀ y, y < 256 → ∀ k, k < 16 → k % 2 = 0 →
    ((((y &&& (0xFF ^^^ MUXSEL_MASK)) ||| (k <<< MUXSEL_BIT)) % 256) ||| (1 <<< MUXSEL_BIT)) &&&
      MUXSEL_MASK = k + 1 ∧
    ((((y &&& (0xFF ^^^ MUXSEL_MASK)) ||| (k <<< MUXSEL_BIT)) % 256) ||| (1 <<< MUXSEL_BIT)) &&&
      0xF0 = y &&& 0xF0 := by
  decide

theorem and_high_nibble_mod (y : Nat) :
    y &&& (0xFF ^^^ MUXSEL_MASK) = (y % 256) &&& (0xFF ^^^ MUXSEL_MASK) := by
  have h1 : (256 : Nat) = 2 ^ 8 := rfl
  have h2 : y % 2 ^ 8 = y &&& (2 ^ 8 - 1) := (Nat.and_pow_two_sub_one_eq_mod y 8).symm
  rw [h1, h2, Nat.and_assoc]
  rfl

theorem hwRead8_value (k : Nat) (mux : Nat → Nat) (h : Hw) (hk : k < 16) :
    (hwRead8 k mux h).1 = mux k := by
  simp only [hwRead8]
  rw [and_high_nibble_mod, (slot_select (h.muxselPort % 256) (Nat.mod_lt _ (by decide)) k hk).1]

theorem hwRead16_value (k : Nat) (mux : Nat → Nat) (h : Hw) (hk : k < 16) (hev : k % 2 = 0) :
    (hwRead16 k mux h).1 = ((mux (k + 1) <<< 8) ||| mux k) % 65536 := by
  simp only [hwRead16]
  rw [and_high_nibble_mod,
    (slot_select (h.muxselPort % 256) (Nat.mod_lt _ (by decide)) k hk).1,
    (slot_select_next (h.muxselPort % 256) (Nat.mod_lt _ (by decide)) k hk hev).1]

theorem logDetails_watch (mux : Nat → Nat) (m : Mon) :
    (logDetails mux m).1 = mux OFFSET_BW_M &&& 8 := by
  simp only [logDetails]
  rw [hwRead8_value _ _ _ (by decide)]

theorem logDetails_out (mux : Nat → Nat) (m : Mon) :
    ∃ ia ba, (logDetails mux m).2.out =
      m.out ++ [Out.hit
        (if mux OFFSET_BW_M &&& 8 ≠ 0 then (mux OFFSET_BW_M &&& 7) <<< 3 else mux OFFSET_BW_M)
        ia ba] := by
  simp only [logDetails]
  rw [hwRead8_value _ _ _ (by decide)]
  exact ⟨_, _, rfl⟩

/-! ### One pass of the poll loop (C11, C12, C20) and the shutdown path (C13) -/

theorem pollBody_active (p : Poll) (cont : Nat) (m : Mon)
    (hact : p.status &&& BW_ACTIVE_MASK ≠ 0) (hint : p.status &&& INTERRUPTED_MASK = 0)
    (hser : p.serial = false) :
    pollBody p cont m =
      ((logDetails p.mux m).1,
        { (logDetails p.mux m).2 with hw := hwCmd CMD_WATCH_READ 0 (logDetails p.mux m).2.hw }) := by
  have h2 : ¬ (p.status &&& INTERRUPTED_MASK ≠ 0 ∨ p.serial = true) := by
    simp [hint, hser]
  simp only [pollBody, if_pos hact, if_neg h2]

theorem pollBody_exiting (p : Poll) (cont : Nat) (m : Mon)
    (h : (p.status &&& INTERRUPTED_MASK ≠ 0 ∨ p.serial = true) ∨
      (p.status &&& BW_ACTIVE_MASK ≠ 0 ∧ p.mux OFFSET_BW_M &&& 8 = 0)) :
    (pollBody p cont m).1 = 0 := by
  by_cases h2 : p.status &&& INTERRUPTED_MASK ≠ 0 ∨ p.serial = true
  · simp only [pollBody, if_pos h2]
  · rcases h with h | ⟨hact, hw⟩
    · exact absurd h h2
    · simp only [pollBody, if_pos hact, if_neg h2]
      rw [logDetails_watch]
      exact hw

theorem pollLoop_exits : ∀ (polls : List Poll) (cont : Nat) (m : Mon),
    (∃ p ∈ polls, (p.status &&& INTERRUPTED_MASK ≠ 0 ∨ p.serial = true) ∨
      (p.status &&& BW_ACTIVE_MASK ≠ 0 ∧ p.mux OFFSET_BW_M &&& 8 = 0)) →
    ∃ rest, (pollLoop polls cont m).2 = some rest := by
  intro polls
  induction polls with
  | nil => intro _ _ ⟨p, hp, _⟩; simp at hp
  | cons q qs ih =>
    intro cont m ⟨p, hp, hex⟩
    by_cases hc : (pollBody q cont m).1 ≠ 0
    · simp only [pollLoop, if_pos hc]
      apply ih
      rcases List.mem_cons.1 hp with rfl | hmem
      · exact absurd (pollBody_exiting p cont m hex) hc
      · exact ⟨p, hmem, hex⟩
    · simp only [pollLoop, if_neg hc]
      exact ⟨qs, rfl⟩

/-- Claim C11 (watch continues, breakpoint stops).  In a pass of the poll loop
of `doCmdContinue` whose status read has the breakpoint/watch-active flag set,
the interrupted flag clear and no serial byte pending: if bit 3 of the
compressed mode read from `OFFSET_BW_M` is set (a watch), the pass issues the
watch-acknowledge command, ends with `cont` non-zero and the loop goes on with
the next pass; if bit 3 is clear (a breakpoint), the pass ends with `cont`
zero and the loop ends after it. -/
theorem watch_continues_breakpoint_stops (p : Poll) (ps : List Poll) (cont : Nat) (m : Mon)
    (hact : p.status &&& BW_ACTIVE_MASK ≠ 0) (hint : p.status &&& INTERRUPTED_MASK = 0)
    (hser : p.serial = false) :
    (p.mux OFFSET_BW_M &&& 8 ≠ 0 →
      (pollBody p cont m).2.hw.cmds = m.hw.cmds ++ [(CMD_WATCH_READ, 0)] ∧
      (pollBody p cont m).1 ≠ 0 ∧
      pollLoop (p :: ps) cont m = pollLoop ps (pollBody p cont m).1 (pollBody p cont m).2) ∧
    (p.mux OFFSET_BW_M &&& 8 = 0 →
      (pollBody p cont m).1 = 0 ∧
      pollLoop (p :: ps) cont m = ((pollBody p cont m).2, some ps)) := by
  have hb := pollBody_active p cont m hact hint hser
  have hc : (pollBody p cont m).1 = p.mux OFFSET_BW_M &&& 8 := by
    rw [hb]; exact logDetails_watch _ _
  constructor
  · intro hw
    have hne : (pollBody p cont m).1 ≠ 0 := by rw [hc]; exact hw
    refine ⟨?_, hne, ?_⟩
    · rw [hb]; rfl
    · simp only [pollLoop, if_pos hne]
  · intro hw
    have he : (pollBody p cont m).1 = 0 := by rw [hc]; exact hw
    refine ⟨he, ?_⟩
    have : ¬ ((pollBody p cont m).1 ≠ 0) := by simp [he]
    simp only [pollLoop, if_neg this]

/-- Witness of C11: an active pass with compressed mode 0x09 (a watch) goes
on, one with compressed mode 0x01 (a breakpoint) ends the loop. -/
theorem watch_continues_breakpoint_stops_witness :
    (pollBody ⟨0x80, fun i => if i = 6 then 0x09 else 0, false⟩ 1
      ⟨emptyStore, ⟨0, 0, [], []⟩, 0, 0, []⟩).1 ≠ 0 ∧
    (pollBody ⟨0x80, fun i => if i = 6 then 0x01 else 0, false⟩ 1
      ⟨emptyStore, ⟨0, 0, [], []⟩, 0, 0, []⟩).1 = 0 :=
  ⟨((watch_continues_breakpoint_stops ⟨0x80, fun i => if i = 6 then 0x09 else 0, false⟩ [] 1
      ⟨emptyStore, ⟨0, 0, [], []⟩, 0, 0, []⟩ (by decide) (by decide) rfl).1 (by decide)).2.1,
   ((watch_continues_breakpoint_stops ⟨0x80, fun i => if i = 6 then 0x01 else 0, false⟩ [] 1
      ⟨emptyStore, ⟨0, 0, [], []⟩, 0, 0, []⟩ (by decide) (by decide) rfl).2 (by decide)).1⟩

/-- Claim C12 (interrupt exit without hit report).  In a pass of the poll loop
whose status read has the interrupted flag set and the breakpoint/watch-active
flag clear, the loop ends after that pass; the pass leaves the hardware state
as it was (no register read of `logDetails`, no command, hence no
watch-acknowledge) and prints only "Interrupted", so no hit is reported. -/
theorem interrupt_exit_without_hit_report (p : Poll) (ps : List Poll) (cont : Nat) (m : Mon)
    (hint : p.status &&& INTERRUPTED_MASK ≠ 0) (hact : p.status &&& BW_ACTIVE_MASK = 0) :
    pollLoop (p :: ps) cont m = ({ m with out := m.out ++ [Out.interrupted] }, some ps) ∧
    (pollBody p cont m).1 = 0 ∧
    (pollBody p cont m).2.hw = m.hw ∧
    (pollBody p cont m).2.out = m.out ++ [Out.interrupted] := by
  have h1 : ¬ (p.status &&& BW_ACTIVE_MASK ≠ 0) := by simp [hact]
  have h2 : p.status &&& INTERRUPTED_MASK ≠ 0 ∨ p.serial = true := Or.inl hint
  have hb : pollBody p cont m = (0, { m with out := m.out ++ [Out.interrupted] }) := by
    simp only [pollBody, if_neg h1, if_pos h2]
  refine ⟨?_, by rw [hb], by rw [hb], by rw [hb]⟩
  simp only [pollLoop, hb]
  simp

/-- Witness of C12: a pass with status 0x40 after some earlier output. -/
theorem interrupt_exit_without_hit_report_witness :
    (pollBody ⟨0x40, fun _ => 0, false⟩ 1
      ⟨emptyStore, ⟨0, 0, [], [(CMD_STEP, 0)]⟩, 0, 0, [Out.freeRunning]⟩).2.out =
      [Out.freeRunning, Out.interrupted] ∧
    (pollBody ⟨0x40, fun _ => 0, false⟩ 1
      ⟨emptyStore, ⟨0, 0, [], [(CMD_STEP, 0)]⟩, 0, 0, [Out.freeRunning]⟩).2.hw =
      ⟨0, 0, [], [(CMD_STEP, 0)]⟩ :=
  ⟨(interrupt_exit_without_hit_report ⟨0x40, fun _ => 0, false⟩ [] 1
      ⟨emptyStore, ⟨0, 0, [], [(CMD_STEP, 0)]⟩, 0, 0, [Out.freeRunning]⟩
      (by decide) (by decide)).2.2.2,
   (interrupt_exit_without_hit_report ⟨0x40, fun _ => 0, false⟩ [] 1
      ⟨emptyStore, ⟨0, 0, [], [(CMD_STEP, 0)]⟩, 0, 0, [Out.freeRunning]⟩
      (by decide) (by decide)).2.2.1⟩

/-- Claim C13 (shutdown path).  The poll loop of `doCmdContinue` ends, and the
function returns, as soon as the environment offers a pass that is either
interrupted (interrupted flag or pending serial byte) or a breakpoint hit
(active flag with bit 3 of the compressed mode clear).  Whenever the function
returns, for either reason, the hardware commands issued after the loop are,
in order, `(CMD_SINGLE_ENABLE, 1)` and `(CMD_BRKPT_ENABLE, 0)`; then the current
instruction address is read (low byte from mux slot 0, high byte from slot 1)
into `memAddr` and reported; and the state flag `single` is 1. -/
theorem shutdown_path (m : Mon) (polls : List Poll) (after : Poll) :
    ((∃ p ∈ polls, (p.status &&& INTERRUPTED_MASK ≠ 0 ∨ p.serial = true) ∨
        (p.status &&& BW_ACTIVE_MASK ≠ 0 ∧ p.mux OFFSET_BW_M &&& 8 = 0)) →
      (doCmdContinue m polls after).2 = true) ∧
    ((doCmdContinue m polls after).2 = true →
      (doCmdContinue m polls after).1.hw.cmds =
        (pollLoop polls 1 (doCmdContinue_arm m)).1.hw.cmds ++
          [(CMD_SINGLE_ENABLE, 1), (CMD_BRKPT_ENABLE, 0)] ∧
      (doCmdContinue m polls after).1.memAddr = ((after.mux 1 <<< 8) ||| after.mux 0) % 65536 ∧
      (doCmdContinue m polls after).1.out =
        (pollLoop polls 1 (doCmdContinue_arm m)).1.out ++
          [Out.addr (((after.mux 1 <<< 8) ||| after.mux 0) % 65536)] ∧
      (doCmdContinue m polls after).1.single = 1) := by
  have hv : ∀ h : Hw, (hwRead16 OFFSET_IAL after.mux h).1 =
      ((after.mux 1 <<< 8) ||| after.mux 0) % 65536 :=
    fun h => hwRead16_value OFFSET_IAL after.mux h (by decide) (by decide)
  have hsome : ∀ rest, (pollLoop polls 1 (doCmdContinue_arm m)).2 = some rest →
      doCmdContinue m polls after =
        (doCmdContinue_stop after (pollLoop polls 1 (doCmdContinue_arm m)).1, true) := by
    intro rest hr
    simp only [doCmdContinue, hr]
  constructor
  · intro hex
    obtain ⟨rest, hr⟩ := pollLoop_exits polls 1 (doCmdContinue_arm m) hex
    rw [hsome rest hr]
  · intro hret
    cases hr : (pollLoop polls 1 (doCmdContinue_arm m)).2 with
    | none =>
      have : doCmdContinue m polls after = ((pollLoop polls 1 (doCmdContinue_arm m)).1, false) := by
        simp only [doCmdContinue, hr]
      rw [this] at hret
      exact absurd hret (show ¬ (false = true) by decide)
    | some rest =>
      rw [hsome rest hr]
      refine ⟨?_, ?_, ?_, rfl⟩
      · simp only [doCmdContinue_stop, doCmdAddr, setSingle, hwRead16, hwCmd]
        simp
      · simp only [doCmdContinue_stop, doCmdAddr, hv]
      · simp only [doCmdContinue_stop, doCmdAddr, hv, setSingle]

/-- Witness of C13: `doCmdContinue` returns after a breakpoint hit and after an
interrupt, in both cases with `single = 1` and the address 0x1234 reported
last. -/
theorem shutdown_path_witness :
    (doCmdContinue ⟨emptyStore, ⟨0, 0, [], []⟩, 1, 0, []⟩
      [⟨0x80, fun i => if i = 6 then 0x01 else 0, false⟩]
      ⟨0, fun i => if i = 0 then 0x34 else 0x12, false⟩).2 = true ∧
    (doCmdContinue ⟨emptyStore, ⟨0, 0, [], []⟩, 1, 0, []⟩
      [⟨0x80, fun i => if i = 6 then 0x01 else 0, false⟩]
      ⟨0, fun i => if i = 0 then 0x34 else 0x12, false⟩).1.single = 1 ∧
    (doCmdContinue ⟨emptyStore, ⟨0, 0, [], []⟩, 1, 0, []⟩
      [⟨0, fun _ => 0, false⟩, ⟨0x40, fun _ => 0, false⟩]
      ⟨0, fun i => if i = 0 then 0x34 else 0x12, false⟩).1.memAddr = 0x1234 :=
  ⟨(shutdown_path ⟨emptyStore, ⟨0, 0, [], []⟩, 1, 0, []⟩
      [⟨0x80, fun i => if i = 6 then 0x01 else 0, false⟩]
      ⟨0, fun i => if i = 0 then 0x34 else 0x12, false⟩).1
      ⟨_, List.mem_singleton.2 rfl, Or.inr ⟨by decide, by decide⟩⟩,
   ((shutdown_path ⟨emptyStore, ⟨0, 0, [], []⟩, 1, 0, []⟩
      [⟨0x80, fun i => if i = 6 then 0x01 else 0, false⟩]
      ⟨0, fun i => if i = 0 then 0x34 else 0x12, false⟩).2 rfl).2.2.2,
   ((shutdown_path ⟨emptyStore, ⟨0, 0, [], []⟩, 1, 0, []⟩
      [⟨0, fun _ => 0, false⟩, ⟨0x40, fun _ => 0, false⟩]
      ⟨0, fun i => if i = 0 then 0x34 else 0x12, false⟩).2 rfl).2.1⟩

/-- Claim C20 (acknowledge on every hit).  In a pass of the poll loop whose
status read has the breakpoint/watch-active flag set, whatever the hit decodes
to, exactly one hardware command is issued, `(CMD_WATCH_READ, 0)`, and it is
issued on the hardware state `logDetails` leaves behind, that is after the hit
details have been read (the mux still selects the mode register).  In a pass
with the active flag clear the hardware state is left as it was, so no command
is issued. -/
theorem acknowledge_on_every_hit (p : Poll) (cont : Nat) (m : Mon) :
    (p.status &&& BW_ACTIVE_MASK ≠ 0 →
      (pollBody p cont m).2.hw.cmds = m.hw.cmds ++ [(CMD_WATCH_READ, 0)] ∧
      (pollBody p cont m).2.hw = hwCmd CMD_WATCH_READ 0 (logDetails p.mux m).2.hw ∧
      (pollBody p cont m).2.hw.muxselPort &&& MUXSEL_MASK = OFFSET_BW_M) ∧
    (p.status &&& BW_ACTIVE_MASK = 0 →
      (pollBody p cont m).2.hw = m.hw) := by
  constructor
  · intro hact
    have hsel : (logDetails p.mux m).2.hw.muxselPort &&& MUXSEL_MASK = OFFSET_BW_M := by
      simp only [logDetails, hwRead8]
      rw [and_high_nibble_mod]
      exact (slot_select _ (Nat.mod_lt _ (by decide)) OFFSET_BW_M (by decide)).1
    have hhw : (pollBody p cont m).2.hw = hwCmd CMD_WATCH_READ 0 (logDetails p.mux m).2.hw := by
      by_cases h2 : p.status &&& INTERRUPTED_MASK ≠ 0 ∨ p.serial = true
      · simp only [pollBody, if_pos hact, if_pos h2]
      · simp only [pollBody, if_pos hact, if_neg h2]
    refine ⟨?_, hhw, ?_⟩
    · rw [hhw]; rfl
    · rw [hhw]; exact hsel
  · intro hact
    have h1 : ¬ (p.status &&& BW_ACTIVE_MASK ≠ 0) := by simp [hact]
    by_cases h2 : p.status &&& INTERRUPTED_MASK ≠ 0 ∨ p.serial = true
    · simp only [pollBody, if_neg h1, if_pos h2]
    · simp only [pollBody, if_neg h1, if_neg h2]

/-- Witness of C20: the acknowledge is issued for a breakpoint hit (compressed
mode 0x01) as well, and not in a pass without the active flag. -/
theorem acknowledge_on_every_hit_witness :
    (pollBody ⟨0x80, fun i => if i = 6 then 0x01 else 0, false⟩ 1
      ⟨emptyStore, ⟨0, 0, [], []⟩, 0, 0, []⟩).2.hw.cmds = [(CMD_WATCH_READ, 0)] ∧
    (pollBody ⟨0x40, fun _ => 0, false⟩ 1
      ⟨emptyStore, ⟨0, 0, [], []⟩, 0, 0, []⟩).2.hw = ⟨0, 0, [], []⟩ :=
  ⟨((acknowledge_on_every_hit ⟨0x80, fun i => if i = 6 then 0x01 else 0, false⟩ 1
      ⟨emptyStore, ⟨0, 0, [], []⟩, 0, 0, []⟩).1 (by decide)).1,
   (acknowledge_on_every_hit ⟨0x40, fun _ => 0, false⟩ 1
      ⟨emptyStore, ⟨0, 0, [], []⟩, 0, 0, []⟩).2 (by decide)⟩

/-! ### Step schedule (C14) -/

theorem lookupBreakpoint_lt (s : Store) (p : Option Nat)
    (h : 0 ≤ (lookupBreakpoint s p).1) : (lookupBreakpoint s p).1 < s.numbkpts := by
  revert h
  unfold lookupBreakpoint
  simp only
  split
  · intro _; assumption
  · intro h; exact absurd h (show ¬ (0 : Int) ≤ -1 by decide)

/-- Claim C15 (trigger-set validation).  When the lookup finds an entry index
`n` (a result that is not negative, hence below the count), `doCmdTrigger` with
a 16-bit code `c` sets `triggers[n] = c` and changes nothing else in the store
when `c ≤ 15`; when `c` is outside 0..15 it leaves the whole store unchanged
and reports an illegal trigger code; the same holds when no code is given. -/
theorem trigger_set_validation (s : Store) (p : Option Nat) (c : Nat)
    (hfound : 0 ≤ (lookupBreakpoint s p).1) (hc : c < 65536) :
    (lookupBreakpoint s p).1 < s.numbkpts ∧
    (c ≤ 15 →
      (doCmdTrigger s p (some c)).1 =
        { s with triggers := arrSet s.triggers (lookupBreakpoint s p).1.toNat c }) ∧
    (15 < c →
      (doCmdTrigger s p (some c)).1 = s ∧
      (doCmdTrigger s p (some c)).2 = (lookupBreakpoint s p).2 ++ [Msg.illegalTrigger]) ∧
    (doCmdTrigger s p none).1 = s := by
  have hn : ¬ (lookupBreakpoint s p).1 < 0 := by omega
  refine ⟨lookupBreakpoint_lt s p hfound, ?_, ?_, ?_⟩
  · intro hle
    have ht : toInt16 c = (c : Int) := by
      unfold toInt16
      rw [if_pos (by omega)]
    have hr : 0 ≤ (c : Int) ∧ (c : Int) < NUM_TRIGGERS := by
      have : (NUM_TRIGGERS : Int) = 16 := rfl
      omega
    simp only [doCmdTrigger, if_neg hn, Option.getD_some, ht, Int.toNat_ofNat]
    rw [if_pos hr]
  · intro hgt
    have hr : ¬ (0 ≤ toInt16 c ∧ toInt16 c < NUM_TRIGGERS) := by
      have : (NUM_TRIGGERS : Int) = 16 := rfl
      unfold toInt16
      split <;> omega
    simp only [doCmdTrigger, if_neg hn, Option.getD_some, if_neg hr, and_self]
  · have hr : ¬ (0 ≤ toInt16 UINT_MAX ∧ toInt16 UINT_MAX < NUM_TRIGGERS) := by decide
    simp only [doCmdTrigger, if_neg hn, Option.getD_none, if_neg hr]

/-- Witness of C15 on the store `[(0x1234, 0x01, 15)]`: the code 7 is stored,
the code 0x20 is refused. -/
theorem trigger_set_validation_witness :
    (doCmdTrigger (run emptyStore [Cmd.breaki 0x1234 none]) (some 0x1234) (some 7)).1.entries =
      [⟨0x1234, 0x01, 7⟩] ∧
    (doCmdTrigger (run emptyStore [Cmd.breaki 0x1234 none]) (some 0x1234) (some 0x20)).1 =
      run emptyStore [Cmd.breaki 0x1234 none] :=
  ⟨(congrArg Store.entries
      ((trigger_set_validation (run emptyStore [Cmd.breaki 0x1234 none]) (some 0x1234) 7
        (by decide) (by decide)).2.1 (by decide))).trans (by decide),
   ((trigger_set_validation (run emptyStore [Cmd.breaki 0x1234 none]) (some 0x1234) 0x20
      (by decide) (by decide)).2.2.1 (by decide)).1⟩

/-- Claim C16, amended (hit-mode decoding).  Let `v` be the value read from the
compressed mode register `OFFSET_BW_M`.  When bit 3 of `v` is set, `logDetails`
reports the expanded mode `(v & 7) << 3` and returns non-zero (watch).  When
bit 3 of `v` is clear it returns zero (breakpoint) and reports the mode `v`
as read, without masking; this is `v & 7`, only breakpoint bits 0..2, whenever
`v` is a 4-bit value (`v < 16`). -/
theorem hit_mode_decoding (mux : Nat → Nat) (m : Mon) :
    (mux OFFSET_BW_M &&& 8 ≠ 0 →
      (logDetails mux m).1 ≠ 0 ∧
      ∃ ia ba, (logDetails mux m).2.out =
        m.out ++ [Out.hit ((mux OFFSET_BW_M &&& 7) <<< 3) ia ba]) ∧
    (mux OFFSET_BW_M &&& 8 = 0 →
      (logDetails mux m).1 = 0 ∧
      (∃ ia ba, (logDetails mux m).2.out = m.out ++ [Out.hit (mux OFFSET_BW_M) ia ba]) ∧
      (mux OFFSET_BW_M < 16 → mux OFFSET_BW_M = mux OFFSET_BW_M &&& 7)) := by
  have hw := logDetails_watch mux m
  obtain ⟨ia, ba, ho⟩ := logDetails_out mux m
  constructor
  · intro h
    refine ⟨by rw [hw]; exact h, ia, ba, ?_⟩
    rw [ho, if_pos h]
  · intro h
    have h2 : ¬ (mux OFFSET_BW_M &&& 8 ≠ 0) := by simp [h]
    refine ⟨by rw [hw]; exact h, ⟨ia, ba, ?_⟩, ?_⟩
    · rw [ho, if_neg h2]
    · generalize mux OFFSET_BW_M = v at h
      intro hv
      revert h
      revert v
      decide

/-- Witness of C16: the compressed mode 0x0A (write watch) is reported as mode
0x10 with a non-zero result. -/
theorem hit_mode_decoding_witness :
    (logDetails (fun i => if i = 6 then 0x0A else 0)
      ⟨emptyStore, ⟨0, 0, [], []⟩, 0, 0, []⟩).1 ≠ 0 ∧
    ∃ ia ba, (logDetails (fun i => if i = 6 then 0x0A else 0)
      ⟨emptyStore, ⟨0, 0, [], []⟩, 0, 0, []⟩).2.out = [] ++ [Out.hit ((0x0A &&& 7) <<< 3) ia ba] :=
  (hit_mode_decoding (fun i => if i = 6 then 0x0A else 0)
    ⟨emptyStore, ⟨0, 0, [], []⟩, 0, 0, []⟩).1 (by decide)

/-- Counterexample to C16 as stated.  The 8-bit value 0x10 has bit 3 clear and
`0x10 & 7 = 0`, yet `logDetails` reports the mode 0x10, for which `logMode`
prints "Read watch" (and the accessed address is printed), whereas for the
mode `0x10 & 7` it prints no mode name. -/
theorem hit_mode_decoding_counterexample :
    (0x10 &&& 8 = 0) ∧ (0x10 &&& 7 = 0) ∧
    (logDetails (fun i => if i = OFFSET_BW_M then 0x10 else 0)
      ⟨emptyStore, ⟨0, 0, [], []⟩, 0, 0, []⟩).1 = 0 ∧
    (logDetails (fun i => if i = OFFSET_BW_M then 0x10 else 0)
      ⟨emptyStore, ⟨0, 0, [], []⟩, 0, 0, []⟩).2.out = [Out.hit 0x10 0 (some 0)] ∧
    logMode 0x10 = [WATCH_READ] ∧
    logMode (0x10 &&& 7) = [] := by
  decide

/-! ### Register read (C17) and command write (C18) -/

/-- Claim C17, amended (16-bit register read).  For every even register offset
`k ≤ 14`, every prior mux-select state and every byte values behind the mux,
`hwRead16(k)` reads the low byte from mux slot `k` (the slot `hwRead8(k)`
selects and reads) and the high byte from mux slot `k + 1`, which is left
selected, returns `high * 256 + low`, and leaves the upper four bits of the
mux-select port as they were. -/
theorem read16_little_endian (k : Nat) (mux : Nat → Nat) (h : Hw)
    (hk : k ≤ 14) (hev : k % 2 = 0) (hlo : mux k < 256) (hhi : mux (k + 1) < 256) :
    (hwRead16 k mux h).1 = mux (k + 1) * 256 + mux k ∧
    (hwRead16 k mux h).2.muxselPort &&& MUXSEL_MASK = k + 1 ∧
    (hwRead16 k mux h).2.muxselPort &&& 0xF0 = h.muxselPort &&& 0xF0 ∧
    (hwRead8 k mux h).1 = mux k ∧
    (hwRead8 k mux h).2.muxselPort &&& MUXSEL_MASK = k := by
  have hm : h.muxselPort &&& 0xF0 = h.muxselPort % 256 &&& 0xF0 := and_high_nibble_mod _
  refine ⟨?_, ?_, ?_, hwRead8_value k mux h (by omega), ?_⟩
  · rw [hwRead16_value k mux h (by omega) hev]
    have e : mux (k + 1) <<< 8 ||| mux k = 2 ^ 8 * mux (k + 1) + mux k := by
      rw [Nat.shiftLeft_eq, Nat.mul_comm]
      exact (Nat.mul_add_lt_is_or (by omega) _).symm
    rw [e]
    omega
  · simp only [hwRead16]
    rw [and_high_nibble_mod]
    exact (slot_select_next _ (Nat.mod_lt _ (by decide)) k (by omega) hev).1
  · simp only [hwRead16]
    rw [and_high_nibble_mod, hm]
    exact (slot_select_next _ (Nat.mod_lt _ (by decide)) k (by omega) hev).2
  · simp only [hwRead8]
    rw [and_high_nibble_mod]
    exact (slot_select _ (Nat.mod_lt _ (by decide)) k (by omega)).1

/-- Witness of C17: reading offset 2 with the port at 0xA7. -/
theorem read16_little_endian_witness :
    (hwRead16 2 (fun i => 0x10 + i) ⟨0, 0xA7, [], []⟩).1 = (0x10 + (2 + 1)) * 256 + (0x10 + 2) ∧
    (hwRead16 2 (fun i => 0x10 + i) ⟨0, 0xA7, [], []⟩).2.muxselPort &&& MUXSEL_MASK = 2 + 1 :=
  ⟨(read16_little_endian 2 (fun i => 0x10 + i) ⟨0, 0xA7, [], []⟩
      (by decide) (by decide) (by decide) (by decide)).1,
   (read16_little_endian 2 (fun i => 0x10 + i) ⟨0, 0xA7, [], []⟩
      (by decide) (by decide) (by decide) (by decide)).2.1⟩

/-- Counterexample to C17 as stated.  With the odd offset 1 and mux slot `i`
presenting the byte `i`, `hwRead16(1)` returns `1 * 256 + 1`: the high byte is
read from slot 1 again, not from slot 2, and slot 1 is left selected. -/
theorem read16_odd_offset_counterexample :
    (hwRead16 1 (fun i => i) ⟨0, 0, [], []⟩).1 = 1 * 256 + 1 ∧
    (hwRead16 1 (fun i => i) ⟨0, 0, [], []⟩).1 ≠ 2 * 256 + 1 ∧
    (hwRead16 1 (fun i => i) ⟨0, 0, [], []⟩).2.muxselPort &&& MUXSEL_MASK = 1 := by
  decide

set_option maxRecDepth 100000 in
theorem ctrl_write : ∀ x, x < 256 → ∀ c, c < 16 →
    (x &&& (0xFF ^^^ CMD_MASK)) &&& CMD_MASK = 0 ∧
    (x &&& (0xFF ^^^ CMD_MASK)) &&& 0xE0 = x &&& 0xE0 ∧
    (((x &&& (0xFF ^^^ CMD_MASK)) ||| c) % 256) &&& CMD_MASK = c ∧
    (((x &&& (0xFF ^^^ CMD_MASK)) ||| c) % 256) &&& CMD_EDGE = 0 ∧
    (((x &&& (0xFF ^^^ CMD_MASK)) ||| c) % 256) &&& 0xE0 = x &&& 0xE0 ∧
    ((((x &&& (0xFF ^^^ CMD_MASK)) ||| c) % 256) ||| CMD_EDGE) &&& CMD_MASK = 0x10 ||| c ∧
    ((((x &&& (0xFF ^^^ CMD_MASK)) ||| c) % 256) ||| CMD_EDGE) &&& CMD_EDGE = CMD_EDGE ∧
    ((((x &&& (0xFF ^^^ CMD_MASK)) ||| c) % 256) ||| CMD_EDGE) &&& 0xE0 = x &&& 0xE0 := by
  decide

/-- Claim C18 (command write).  For a command code `c` and a parameter `p` with
`(c | p) < 16` and every prior 8-bit value of the control port, `hwCmd(c, p)`
assigns the port three times: first with the low five bits cleared, then with
the low five bits equal to `c | p` and the strobe bit 0x10 clear, then with the
strobe bit set, so the low five bits end as `0x10 | c | p`; the strobe thus
rises in every call, and the upper three bits of the port are the same in all
three values as before the call. -/
theorem command_write (c p : Nat) (h : Hw) (hcp : c ||| p < 16) (hport : h.ctrlPort < 256) :
    ∃ w1 w2 w3,
      (hwCmd c p h).ctrlWrites = h.ctrlWrites ++ [w1, w2, w3] ∧
      (hwCmd c p h).ctrlPort = w3 ∧
      w1 &&& CMD_MASK = 0 ∧
      w2 &&& CMD_MASK = c ||| p ∧ w2 &&& CMD_EDGE = 0 ∧
      w3 &&& CMD_MASK = 0x10 ||| (c ||| p) ∧ w3 &&& CMD_EDGE = CMD_EDGE ∧
      w1 &&& 0xE0 = h.ctrlPort &&& 0xE0 ∧
      w2 &&& 0xE0 = h.ctrlPort &&& 0xE0 ∧
      w3 &&& 0xE0 = h.ctrlPort &&& 0xE0 := by
  obtain ⟨h1, h2, h3, h4, h5, h6, h7, h8⟩ := ctrl_write h.ctrlPort hport (c ||| p) hcp
  exact ⟨_, _, _, rfl, rfl, h1, h3, h4, h6, h7, h2, h5, h8⟩

/-- Witness of C18: `hwCmd(CMD_LOAD_BRKPT, 1)` with the port at 0xF3. -/
theorem command_write_witness :
    ∃ w1 w2 w3,
      (hwCmd CMD_LOAD_BRKPT 1 ⟨0xF3, 0, [], []⟩).ctrlWrites = [] ++ [w1, w2, w3] ∧
      (hwCmd CMD_LOAD_BRKPT 1 ⟨0xF3, 0, [], []⟩).ctrlPort = w3 ∧
      w1 &&& CMD_MASK = 0 ∧
      w2 &&& CMD_MASK = CMD_LOAD_BRKPT ||| 1 ∧ w2 &&& CMD_EDGE = 0 ∧
      w3 &&& CMD_MASK = 0x10 ||| (CMD_LOAD_BRKPT ||| 1) ∧ w3 &&& CMD_EDGE = CMD_EDGE ∧
      w1 &&& 0xE0 = 0xF3 &&& 0xE0 ∧
      w2 &&& 0xE0 = 0xF3 &&& 0xE0 ∧
      w3 &&& 0xE0 = 0xF3 &&& 0xE0 :=
  command_write CMD_LOAD_BRKPT 1 ⟨0xF3, 0, [], []⟩ (by decide) (by decide)

/-! ### Compaction bounds (C19) -/

/-- Claim C19 at its failing input.  With 8 stored entries (addresses 1..8),
the clear command for the instruction breakpoint at address 1 removes entry 0;
its compaction loop runs for `i = 0 .. 7` and touches cell 8, outside the 8
allocated slots, in its last pass.  The read is visible in the result: with
the marker 0xBEEF in the cell that follows `breakpoints[7]`, slot 7 of
`breakpoints` holds 0xBEEF after the command. -/
theorem compaction_out_of_bounds_failing_input :
    (run emptyStore [Cmd.breaki 1 none, Cmd.breaki 2 none, Cmd.breaki 3 none,
      Cmd.breaki 4 none, Cmd.breaki 5 none, Cmd.breaki 6 none, Cmd.breaki 7 none,
      Cmd.breaki 8 none]).numbkpts = 8 ∧
    (lookupBreakpoint (run emptyStore [Cmd.breaki 1 none, Cmd.breaki 2 none, Cmd.breaki 3 none,
      Cmd.breaki 4 none, Cmd.breaki 5 none, Cmd.breaki 6 none, Cmd.breaki 7 none,
      Cmd.breaki 8 none]) (some 1)).1 = 0 ∧
    compactLoopCells 0 (8 - 0) = [1, 0, 2, 1, 3, 2, 4, 3, 5, 4, 6, 5, 7, 6, 8, 7] ∧
    8 ∈ compactLoopCells 0 (8 - 0) ∧ ¬ (8 ≤ 7) ∧
    (doCmdBClearI
      { run emptyStore [Cmd.breaki 1 none, Cmd.breaki 2 none, Cmd.breaki 3 none,
          Cmd.breaki 4 none, Cmd.breaki 5 none, Cmd.breaki 6 none, Cmd.breaki 7 none,
          Cmd.breaki 8 none] with
        breakpoints := arrSet (run emptyStore [Cmd.breaki 1 none, Cmd.breaki 2 none,
          Cmd.breaki 3 none, Cmd.breaki 4 none, Cmd.breaki 5 none, Cmd.breaki 6 none,
          Cmd.breaki 7 none, Cmd.breaki 8 none]).breakpoints 8 0xBEEF }
      (some 1)).1.breakpoints 7 = 0xBEEF := by
  decide

end AtomBusMon
